import Mathlib

/-!
# Verification of the rchk protection-stack checker

A shallow embedding of the rchk analyzer: the multi-allocating-argument
scanner (`maacheck.cpp`), the fresh-variables transfer functions
(`freshvars.cpp`), and the per-function state-set engine with adaptive
refinement (`bcheck.cpp`).

Conventions of the embedding:
* local-variable slots (`AllocaInst*`) are `Nat` identifiers;
* basic blocks are `Nat` identifiers;
* function names are `String`s, compared exactly as the C++ code compares
  `Function::getName()`;
* IR pattern recognition (which slot a `PROTECT` argument resolves to,
  the users of a value, liveness query results, call-graph summaries) is
  pure data derived from the IR, so it appears as explicit descriptor
  inputs to the transfer functions; the state-transfer logic itself is
  translated line by line from the source;
* debug/trace messages (`msg.debug`, `msg.trace`) are compiled out in the
  reference configuration (`DEBUG = TRACE = false`), so only `msg.info`
  calls appear as emitted diagnostics;
* the compile-time configuration of `bcheck.cpp` is kept:
  `FULL_COMPARISON = true`, `QUIET_WHEN_CONFUSED = true`,
  `UNIQUE_MSG = true`, `SEPARATE_CHECKING = false`.
-/

set_option autoImplicit false

namespace Rchk

/-- Identifier of a local-storage slot (`AllocaInst*`). -/
abbrev Var := Nat

/-! ## Ordered-map operations on association lists

`std::map` operations used by the checker, on association lists.
`lookupVar` is `find`, `eraseVar` is `erase`, `setVar` is
`operator[]=` / `insert` (update if present, append otherwise). -/

def lookupVar {α : Type} : List (Var × α) → Var → Option α
  | [], _ => none
  | (w, a) :: rest, v => if w = v then some a else lookupVar rest v

def eraseVar {α : Type} : List (Var × α) → Var → List (Var × α)
  | [], _ => []
  | (w, a) :: rest, v => if w = v then rest else (w, a) :: eraseVar rest v

def setVar {α : Type} : List (Var × α) → Var → α → List (Var × α)
  | [], v, a => [(v, a)]
  | (w, b) :: rest, v, a => if w = v then (v, a) :: rest else (w, b) :: setVar rest v a

theorem lookupVar_eraseVar_ne {α : Type} (m : List (Var × α)) (v w : Var) (h : v ≠ w) :
    lookupVar (eraseVar m v) w = lookupVar m w := by
  induction m with
  | nil => rfl
  | cons p rest ih =>
    obtain ⟨k, a⟩ := p
    by_cases hk : k = v
    · subst hk
      simp [eraseVar, lookupVar, h]
    · simp [eraseVar, lookupVar, hk]
      by_cases hw : k = w
      · simp [hw]
      · simp [hw, ih]

theorem lookupVar_eraseVar_self {α : Type} (m : List (Var × α)) (v : Var)
    (hnd : (m.map Prod.fst).Nodup) : lookupVar (eraseVar m v) v = none := by
  induction m with
  | nil => rfl
  | cons p rest ih =>
    obtain ⟨k, a⟩ := p
    simp only [List.map_cons, List.nodup_cons] at hnd
    by_cases hk : k = v
    · subst hk
      simp only [eraseVar, if_pos rfl]
      -- k no longer occurs in rest, so the lookup fails
      clear ih
      induction rest with
      | nil => rfl
      | cons q tail ihr =>
        obtain ⟨k2, b⟩ := q
        simp only [List.map_cons, List.mem_cons, List.nodup_cons] at hnd
        have hk2 : k2 ≠ k := fun h => hnd.1 (Or.inl h.symm)
        simp only [lookupVar, if_neg hk2]
        exact ihr ⟨fun h => hnd.1 (Or.inr h), hnd.2.2⟩
    · simp [eraseVar, lookupVar, hk]
      exact ih hnd.2

/-! ## The multi-allocating-argument scanner (`maacheck.cpp`) -/

/-- `ArgExpKind` from `maacheck.cpp`: classification of a call-argument
expression.  The C enum values 0/1/2 order the kinds. -/
inductive ArgExpKind
  | AK_NOALLOC
  | AK_ALLOCATING
  | AK_FRESH
deriving DecidableEq

/-- The numeric value of the C enum constant. -/
def ArgExpKind.toNat : ArgExpKind → Nat
  | .AK_NOALLOC => 0
  | .AK_ALLOCATING => 1
  | .AK_FRESH => 2

/-- An operand value as far as `classifyArgumentExpression` inspects it:
either a call instruction with (optionally) a statically known callee, or
anything else. -/
inductive ArgValue
  | call (callee : Option String)
  | nonCall
deriving DecidableEq

/-- `classifyArgumentExpression` from `maacheck.cpp`.  `allocating f`
models `isAllocatingFunction(f, functionsMap, gcFunctionIndex)`;
`possibleAllocator f` models `possibleAllocators.find(f) != end`. -/
def classifyArgumentExpression (allocating possibleAllocator : String → Bool) :
    ArgValue → ArgExpKind
  | .nonCall => .AK_NOALLOC
  | .call none => .AK_NOALLOC
  | .call (some f) =>
    if !allocating f then .AK_NOALLOC
    else if possibleAllocator f then .AK_FRESH
    else .AK_ALLOCATING

/-- An operand of the inspected call instruction: either a phi node (whose
incoming values are classified individually, non-recursively — a nested phi
is not a `CallInst` and classifies as `AK_NOALLOC`) or a plain value. -/
inductive CallOperand
  | phi (incoming : List ArgValue)
  | val (v : ArgValue)
deriving DecidableEq

/-- Classification of one operand in the scanner's main loop: a phi node
takes the maximum (by enum value) over its incoming values, any other
operand is classified directly. -/
def classifyOperand (allocating possibleAllocator : String → Bool) :
    CallOperand → ArgExpKind
  | .phi incoming =>
    incoming.foldl
      (fun k v =>
        let cur := classifyArgumentExpression allocating possibleAllocator v
        if cur.toNat > k.toNat then cur else k)
      .AK_NOALLOC
  | .val v => classifyArgumentExpression allocating possibleAllocator v

/-- The counting loop of `main` in `maacheck.cpp`: `nAllocatingArgs`
counts operands with kind `>= AK_ALLOCATING`, `nFreshObjects` counts
operands with kind `>= AK_FRESH`. -/
def countArgKinds (allocating possibleAllocator : String → Bool)
    (ops : List CallOperand) : Nat × Nat :=
  ops.foldl
    (fun acc o =>
      let k := classifyOperand allocating possibleAllocator o
      ((if k.toNat ≥ (ArgExpKind.AK_ALLOCATING).toNat then acc.1 + 1 else acc.1),
       (if k.toNat ≥ (ArgExpKind.AK_FRESH).toNat then acc.2 + 1 else acc.2)))
    (0, 0)

/-- The report condition of `maacheck.cpp`:
`nAllocatingArgs >= 2 && nFreshObjects >= 1`. -/
def suspiciousCall (allocating possibleAllocator : String → Bool)
    (ops : List CallOperand) : Bool :=
  let c := countArgKinds allocating possibleAllocator ops
  c.1 ≥ 2 && c.2 ≥ 1

/-! ### Spec-side formulation of the scanner (for the refinement claim C8) -/

/-- Spec-side classification, following the claim's words: "an operand that
is a direct call to an allocating function is ALLOCATING, additionally FRESH
when the callee is a possible allocator, ... every other operand is
NOALLOC". -/
def specClassifyValue (allocating possibleAllocator : String → Bool) :
    ArgValue → ArgExpKind
  | .call (some f) =>
    if allocating f then
      (if possibleAllocator f then .AK_FRESH else .AK_ALLOCATING)
    else .AK_NOALLOC
  | _ => .AK_NOALLOC

/-- The maximum of two classifications, by enum value. -/
def kindMax (x y : ArgExpKind) : ArgExpKind :=
  if x.toNat ≤ y.toNat then y else x

/-- Spec-side operand classification: "a phi-node operand receives the
maximum classification over its incoming values". -/
def specClassifyOperand (allocating possibleAllocator : String → Bool) :
    CallOperand → ArgExpKind
  | .phi incoming =>
    (incoming.map (specClassifyValue allocating possibleAllocator)).foldl
      kindMax .AK_NOALLOC
  | .val v => specClassifyValue allocating possibleAllocator v

theorem classifyArgumentExpression_eq_spec (allocating possibleAllocator : String → Bool)
    (v : ArgValue) :
    classifyArgumentExpression allocating possibleAllocator v =
      specClassifyValue allocating possibleAllocator v := by
  cases v with
  | nonCall => rfl
  | call callee =>
    cases callee with
    | none => rfl
    | some f =>
      simp only [classifyArgumentExpression, specClassifyValue]
      by_cases h : allocating f <;> simp [h]

theorem phi_fold_eq_spec (allocating possibleAllocator : String → Bool)
    (l : List ArgValue) (k : ArgExpKind) :
    l.foldl
      (fun k v =>
        let cur := classifyArgumentExpression allocating possibleAllocator v
        if cur.toNat > k.toNat then cur else k) k =
      (l.map (specClassifyValue allocating possibleAllocator)).foldl kindMax k := by
  induction l generalizing k with
  | nil => rfl
  | cons v rest ih =>
    simp only [List.foldl_cons, List.map_cons]
    rw [← ih]
    congr 1
    show (let cur := classifyArgumentExpression allocating possibleAllocator v
          if cur.toNat > k.toNat then cur else k) =
        kindMax k (specClassifyValue allocating possibleAllocator v)
    rw [show (let cur := classifyArgumentExpression allocating possibleAllocator v
              if cur.toNat > k.toNat then cur else k) =
          (let cur := specClassifyValue allocating possibleAllocator v
           if cur.toNat > k.toNat then cur else k) by
        rw [classifyArgumentExpression_eq_spec]]
    generalize specClassifyValue allocating possibleAllocator v = c
    cases k <;> cases c <;> rfl

theorem classifyOperand_eq_spec (allocating possibleAllocator : String → Bool)
    (o : CallOperand) :
    classifyOperand allocating possibleAllocator o =
      specClassifyOperand allocating possibleAllocator o := by
  cases o with
  | val v => exact classifyArgumentExpression_eq_spec _ _ v
  | phi incoming =>
    simp only [classifyOperand, specClassifyOperand]
    exact phi_fold_eq_spec allocating possibleAllocator incoming _

theorem countArgKinds_foldl (allocating possibleAllocator : String → Bool)
    (ops : List CallOperand) (a b : Nat) :
    ops.foldl
      (fun acc o =>
        let k := classifyOperand allocating possibleAllocator o
        ((if k.toNat ≥ (ArgExpKind.AK_ALLOCATING).toNat then acc.1 + 1 else acc.1),
         (if k.toNat ≥ (ArgExpKind.AK_FRESH).toNat then acc.2 + 1 else acc.2)))
      (a, b) =
    (a + (ops.map (specClassifyOperand allocating possibleAllocator)).countP
          (fun k => k ≠ .AK_NOALLOC),
     b + (ops.map (specClassifyOperand allocating possibleAllocator)).countP
          (fun k => k = .AK_FRESH)) := by
  induction ops generalizing a b with
  | nil => simp
  | cons o rest ih =>
    simp only [List.foldl_cons, List.map_cons, List.countP_cons, ih]
    rw [classifyOperand_eq_spec]
    generalize specClassifyOperand allocating possibleAllocator o = k
    cases k <;> simp [ArgExpKind.toNat] <;> omega

/-- C8: the multi-allocating-argument scanner reports a call iff, after
classifying each operand (direct call to an allocating function =
ALLOCATING, additionally FRESH when the callee is a possible allocator,
phi = max over incoming values, everything else = NOALLOC), at least two
operands are ALLOCATING or stronger and at least one is FRESH. -/
theorem maacheck_reports_iff (allocating possibleAllocator : String → Bool)
    (ops : List CallOperand) :
    suspiciousCall allocating possibleAllocator ops = true ↔
      2 ≤ (ops.map (specClassifyOperand allocating possibleAllocator)).countP
            (fun k => k ≠ .AK_NOALLOC) ∧
      1 ≤ (ops.map (specClassifyOperand allocating possibleAllocator)).countP
            (fun k => k = .AK_FRESH) := by
  simp only [suspiciousCall, countArgKinds, countArgKinds_foldl]
  simp [Bool.and_eq_true, ge_iff_le]

/-- Witness for C8: a call with two allocating arguments, one of them
fresh, is reported. -/
theorem maacheck_reports_iff_witness :
    suspiciousCall (fun f => f == "alloc1" || f == "alloc2") (fun f => f == "alloc1")
      [.val (.call (some "alloc1")), .val (.call (some "alloc2"))] = true :=
  (maacheck_reports_iff (fun f => f == "alloc1" || f == "alloc2")
    (fun f => f == "alloc1")
    [.val (.call (some "alloc1")), .val (.call (some "alloc2"))]).mpr
    ⟨by decide, by decide⟩

/-! ## Diagnostics

Each constructor corresponds to one `msg.info` call site in
`freshvars.cpp`; the payloads carry the dynamic parts of the message text
(variable and function names).  Debug/trace messages are compiled out in
the reference configuration and do not appear. -/

inductive Diag
  /-- "attempt to unprotect more items (k) than protected (size)" -/
  | unprotectTooMany (count size : Nat)
  /-- "unsupported form of unprotect, unprotecting all variables" -/
  | unsupportedUnprotect
  /-- "protect stack is too deep, unprotecting all variables" -/
  | pstackTooDeep
  /-- "attempt to restore protection stack to higher depth than it has now" -/
  | restoreTooHigh
  /-- "manipulates PPStackTop directly" -/
  | manipulatesPPTop
  /-- "calling allocating function tgt with argument allocated using src" -/
  | allocArgAlloc (tgt src : String)
  /-- "unprotected variable v while calling allocating function tgt" -/
  | unprotectedWhileCalling (v : Var) (tgt : String)
  /-- "calling allocating function tgt with a fresh pointer (v)" -/
  | freshPointerToAlloc (v : Var) (tgt : String)
  /-- "allocating function tgt may destroy its unprotected argument (v),
  which is later used." -/
  | mayDestroyArg (v : Var) (tgt : String)
deriving DecidableEq

/-- Modelled from the spec: a `LineInfoTy` of the line messenger
(`linemsg.h` is not part of the given sources) is a message paired with a
source location; locations are `Nat` identifiers of the reporting
instruction (`0` stands for the `NULL` location). -/
structure LineInfoTy where
  msg : Diag
  loc : Nat
deriving DecidableEq

/-- Modelled from the spec: the buffer of a `DelayedLineMessenger` is the
"ordered multiset of pending diagnostic records" of one `condMsgs` slot. -/
abbrev DelayedMsgs := List LineInfoTy

/-! ## The fresh-variables domain (`freshvars.h` / `freshvars.cpp`) -/

/-- `FreshVarsTy`.  `vars` is the ordered map slot → protect count,
`condMsgs` the map slot → pending conditional messages, `pstack` the
abstract protect stack with the TOP of the stack at the HEAD of the list
(the C++ `std::vector` pushes/pops at the back); `none` entries are
anonymous (`NULL`) stack slots.  `confused` is the trace's confusion
flag. -/
structure FreshVarsTy where
  vars : List (Var × Int)
  condMsgs : List (Var × DelayedMsgs)
  pstack : List (Option Var)
  confused : Bool
deriving DecidableEq

/-- The fresh-vars component of a freshly created entry-block state. -/
def FreshVarsTy.initial : FreshVarsTy := ⟨[], [], [], false⟩

/-- Result of running a fresh-vars transfer function: the new state, the
diagnostics emitted (in order), and the amount added to
`refinableInfos`. -/
structure FVResult where
  fv : FreshVarsTy
  ems : List LineInfoTy
  refinable : Nat
deriving DecidableEq

/-- Per-instruction liveness data (the external liveness oracle's answers
for the instruction being interpreted). -/
structure LivenessInfo where
  possiblyUsed : Var → Bool
  possiblyKilled : Var → Bool
  definitelyUsed : Var → Bool

/-- `unprotectAll` from `freshvars.cpp`: clear the protect stack and zero
every protect count. -/
def unprotectAll (fv : FreshVarsTy) : FreshVarsTy :=
  { fv with pstack := [], vars := fv.vars.map (fun p => (p.1, 0)) }

/-- `unprotectOne` from `freshvars.cpp`: pop the top of the protect stack;
if it is a named slot present in `vars`, decrement its protect count,
clamping at zero (the clamp increments `refinableInfos` but prints only a
debug message).  The C++ callers guarantee a non-empty stack; on an empty
stack the model returns the state unchanged. -/
def unprotectOne (fv : FreshVarsTy) : FreshVarsTy × Nat :=
  match fv.pstack with
  | [] => (fv, 0)
  | t :: rest =>
    let fv1 : FreshVarsTy := { fv with pstack := rest }
    match t with
    | none => (fv1, 0)
    | some v =>
      match lookupVar fv1.vars v with
      | none => (fv1, 0)
      | some n =>
        if n - 1 < 0 then ({ fv1 with vars := setVar fv1.vars v 0 }, 1)
        else ({ fv1 with vars := setVar fv1.vars v (n - 1) }, 0)

/-- The `while(unprotectCount-- > 0) unprotectOne(...)` loop. -/
def unprotectLoop : Nat → FreshVarsTy → FreshVarsTy × Nat
  | 0, fv => (fv, 0)
  | k + 1, fv =>
    let r1 := unprotectOne fv
    let r2 := unprotectLoop k r1.1
    (r2.1, r1.2 + r2.2)

/-- `issueConditionalMessage` from `freshvars.cpp`: if the variable is
definitely used later, emit the message immediately; otherwise append it
to the variable's pending conditional messages. -/
def issueConditionalMessage (live : LivenessInfo) (v : Var) (d : Diag) (loc : Nat)
    (fv : FreshVarsTy) : FVResult :=
  if live.definitelyUsed v then ⟨fv, [⟨d, loc⟩], 1⟩
  else
    match lookupVar fv.condMsgs v with
    | none => ⟨{ fv with condMsgs := setVar fv.condMsgs v [⟨d, loc⟩] }, [], 0⟩
    | some buf => ⟨{ fv with condMsgs := setVar fv.condMsgs v (buf ++ [⟨d, loc⟩]) }, [], 0⟩

/-- The body of `pruneFreshVars` from `freshvars.cpp`, recursing over the
entries of `vars`: a variable that is not possibly used is dropped
together with its conditional messages; a variable that is possibly used
but not possibly killed has its conditional messages flushed (each flush
counts once toward `refinableInfos`).  Returns (kept vars, remaining
condMsgs, emitted messages, refinable increment). -/
def pruneVarsGo (live : LivenessInfo) :
    List (Var × Int) → List (Var × DelayedMsgs) →
      List (Var × Int) × List (Var × DelayedMsgs) × List LineInfoTy × Nat
  | [], cms => ([], cms, [], 0)
  | (v, n) :: rest, cms =>
    if !live.possiblyUsed v then
      pruneVarsGo live rest (eraseVar cms v)
    else if !live.possiblyKilled v then
      match lookupVar cms v with
      | some buf =>
        let r := pruneVarsGo live rest (eraseVar cms v)
        ((v, n) :: r.1, r.2.1, buf ++ r.2.2.1, r.2.2.2 + 1)
      | none =>
        let r := pruneVarsGo live rest cms
        ((v, n) :: r.1, r.2.1, r.2.2.1, r.2.2.2)
    else
      let r := pruneVarsGo live rest cms
      ((v, n) :: r.1, r.2.1, r.2.2.1, r.2.2.2)

/-- `pruneFreshVars` from `freshvars.cpp`. -/
def pruneFreshVars (live : LivenessInfo) (fv : FreshVarsTy) : FVResult :=
  let r := pruneVarsGo live fv.vars fv.condMsgs
  ⟨{ fv with vars := r.1, condMsgs := r.2.1 }, r.2.2.1, r.2.2.2⟩

/-! ## The balance domain (fields as used by `bcheck.cpp`/`freshvars.cpp`)

Modelled from the spec: `balance.h` is not among the given sources; the
record holds exactly the fields the given sources read (`depth`, `count`,
`countState`, `counterVar`, `savedDepth`, `topSaveVar`, `confused`), with
the spec's Balance-domain meaning.  `CS_NONE`/`CS_EXACT`/`CS_DIFF` carry
their C enum values 0/1/2. -/

inductive CountState
  | CS_NONE
  | CS_EXACT
  | CS_DIFF
deriving DecidableEq

/-- Modelled from the spec: the Balance domain value (§3 of the spec). -/
structure BalanceStateTy where
  depth : Int
  count : Int
  countState : CountState
  counterVar : Option Var
  savedDepth : Int
  topSaveVar : Option Var
  confused : Bool
deriving DecidableEq

/-! ## `handleCall` (`freshvars.cpp`) -/

/-- The argument of an `Rf_unprotect` call, as far as `handleCall`
inspects it: a constant, a load of a local slot, or anything else. -/
inductive UnprotectArg
  | constArg (k : Nat)
  | loadArg (v : Var)
  | otherArg
deriving DecidableEq

/-- The `haveCount`/`unprotectCount` computation of `handleCall`: the
count is known for a constant argument, or for a load of the balance
domain's counter variable while `countState == CS_EXACT`. -/
def resolveUnprotectCount (balance : Option BalanceStateTy) :
    UnprotectArg → Option Nat
  | .constArg c => some c
  | .loadArg v =>
    match balance with
    | some b =>
      if b.counterVar = some v ∧ b.countState = .CS_EXACT then some b.count.toNat
      else none
    | none => none
  | .otherArg => none

/-- The `Rf_unprotect` branch of `handleCall`.  The returned flag is true
when `handleCall` `return`s from inside the branch (overflow or
unsupported argument); after a successful pop loop control falls through
to the allocating-call handling. -/
def handleUnprotect (balance : Option BalanceStateTy) (arg : UnprotectArg)
    (fv : FreshVarsTy) (loc : Nat) : FVResult × Bool :=
  match resolveUnprotectCount balance arg with
  | some k =>
    if k > fv.pstack.length then
      (⟨{ fv with confused := true },
        [⟨.unprotectTooMany k fv.pstack.length, loc⟩], 1⟩, true)
    else
      let r := unprotectLoop k fv
      (⟨r.1, [], r.2⟩, false)
  | none =>
    (⟨{ unprotectAll fv with confused := true }, [⟨.unsupportedUnprotect, loc⟩], 0⟩, true)

/-- Syntactic resolution of the variable protected by a
`Rf_protect`/`R_ProtectWithIndex`/`R_Reprotect` call:
`directVar` is the slot behind `PROTECT(x)` (the argument is a load),
`indirectVar` the slot behind `PROTECT(x = foo())` (a store user of the
argument), `setterFirstArgs` the resolved first-argument slots of setter
calls among the users of the protect call's result (inspected only in the
indirect case), and `impliedVar` the slot behind `x = PROTECT(foo())`
(a store user of the call's result). -/
structure ProtectDescr where
  directVar : Option Var
  indirectVar : Option Var
  setterFirstArgs : List Var
  impliedVar : Option Var
deriving DecidableEq

/-- "first argument of the setter is not fresh": the slot is absent from
`vars` or has a positive protect count. -/
def notFreshIn (vars : List (Var × Int)) (fa : Var) : Bool :=
  match lookupVar vars fa with
  | none => true
  | some n => n > 0

/-- The setter scan of the indirect-PROTECT case
(`setAttrib(x, PROTECT(d = alloc()))`): hit when some setter call's first
argument is a slot different from `v` that is not fresh (absent from
`vars` or with positive protect count). -/
def setterScanHit (vars : List (Var × Int)) (v : Var) : List Var → Bool
  | [] => false
  | fa :: rest =>
    if fa ≠ v ∧ notFreshIn vars fa then true
    else setterScanHit vars v rest

/-- The variable-resolution prologue of the PROTECT branch of
`handleCall`: direct load, then indirect store (with the setter scan,
which may erase the slot from `vars` and fall back to the implied
resolution), then implied store, then the checked-fresh filter. -/
def resolveProtectVar (vars : List (Var × Int)) (isVarCheckedFresh : Var → Bool)
    (d : ProtectDescr) : Option Var × List (Var × Int) :=
  let step1 : Option Var × List (Var × Int) :=
    match d.directVar with
    | some v => (some v, vars)
    | none =>
      match d.indirectVar with
      | some v =>
        if setterScanHit vars v d.setterFirstArgs then (none, eraseVar vars v)
        else (some v, vars)
      | none => (none, vars)
  let var2 := match step1.1 with
    | some v => some v
    | none => d.impliedVar
  let var3 := match var2 with
    | some v => if isVarCheckedFresh v then some v else none
    | none => none
  (var3, step1.2)

/-- The `Rf_protect`/`R_ProtectWithIndex`/`R_Reprotect` branch of
`handleCall`.  The returned flag is true when `handleCall` `return`s from
inside the branch; pushing an anonymous value falls through (flag
false). -/
def handleProtectFamily (maxPstack : Nat) (isVarCheckedFresh : Var → Bool)
    (isReprotect : Bool) (d : ProtectDescr) (fv : FreshVarsTy) (_loc : Nat) :
    FVResult × Bool :=
  let rp := resolveProtectVar fv.vars isVarCheckedFresh d
  let var := rp.1
  let fv1 : FreshVarsTy := { fv with vars := rp.2 }
  if isReprotect then
    match var with
    | none => (⟨fv1, [], 0⟩, true)
    | some v =>
      match lookupVar fv1.vars v with
      | some n =>
        if n > 0 then (⟨fv1, [], 0⟩, true)
        else (⟨{ fv1 with vars := setVar fv1.vars v 1 }, [], 0⟩, true)
      | none => (⟨{ fv1 with vars := setVar fv1.vars v 1 }, [], 0⟩, true)
  else
    if fv1.pstack.length = maxPstack then
      (⟨{ unprotectAll fv1 with confused := true }, [⟨.pstackTooDeep, 0⟩], 1⟩, true)
    else
      match var with
      | some v =>
        let fv2 : FreshVarsTy := { fv1 with pstack := some v :: fv1.pstack }
        (match lookupVar fv2.vars v with
         | some n => (⟨{ fv2 with vars := setVar fv2.vars v (n + 1) }, [], 0⟩, true)
         | none => (⟨{ fv2 with vars := setVar fv2.vars v 1 }, [], 0⟩, true))
      | none => (⟨{ fv1 with pstack := none :: fv1.pstack }, [], 0⟩, false)

/-- The `R_PreserveObject` branch of `handleCall`: the resolved slot (if
any) is no longer fresh.  Control always falls through ("do not return,
PreserveObject allocates"). -/
def handlePreserve (preserveVar : Option Var) (fv : FreshVarsTy) : FreshVarsTy :=
  match preserveVar with
  | some v => { fv with vars := eraseVar fv.vars v }
  | none => fv

/-- Call-graph and callee-protect data about the resolved callee
(`tgt`). -/
structure CalleeInfo where
  name : String
  isCAllocating : Bool
  protectsArguments : Bool
  /-- `cprotect.isCalleeSafe(tgt->fun, false)` -/
  calleeSafeWhole : Bool
deriving DecidableEq

/-- Data about one actual argument of the interpreted call site, as
inspected by the allocating-call handling of `handleCall`. -/
structure ArgDescr where
  /-- when the argument expression is a resolved call to a possible
  allocator: the name of that allocator -/
  srcAllocator : Option String
  /-- `aidx < tgt->fun->arg_size() && cprotect.isCalleeSafe(tgt->fun, aidx, false)` -/
  calleeSafeAt : Bool
  /-- `i < nParams && !isSEXP(ftype->getParamType(i))` -/
  skipParam : Bool
  /-- the slot behind `foo(x)` (the argument is a load of an alloca) -/
  loadVar : Option Var
  hasOneUse : Bool
  /-- alloca targets of store users of the argument (`foo(x = bar())`) -/
  storeUsers : List Var
deriving DecidableEq

/-- The allocating-argument check of `handleCall` ("this check can be
done even when the tool is confused"): one finding per argument that is a
call to a possible allocator and is not callee-safe at its position. -/
def allocArgFindings (tgtName : String) (protectsArgs calleeSafeWhole : Bool)
    (args : List ArgDescr) (loc : Nat) : List LineInfoTy :=
  if !protectsArgs && !calleeSafeWhole then
    args.foldr
      (fun a acc =>
        match a.srcAllocator with
        | some srcName =>
          if a.calleeSafeAt then acc else ⟨.allocArgAlloc tgtName srcName, loc⟩ :: acc
        | none => acc) []
  else []

/-- The `passedVars` computation of `handleCall`: slots passed directly
(`foo(x)`) or through a store user (`foo(x = bar())`), skipping non-SEXP
parameters and single-use argument values. -/
def passedVarsOf (args : List ArgDescr) : List Var :=
  args.foldr
    (fun a acc =>
      if a.skipParam then acc
      else
        match a.loadVar with
        | some v => v :: acc
        | none => if a.hasOneUse then acc else a.storeUsers ++ acc) []

/-- The conditional-message loop of `handleCall`: every fresh slot with
protect count 0 that is not passed to the call gets an "unprotected
variable while calling allocating function" diagnostic, immediate or
conditional per `issueConditionalMessage`. -/
def condMsgLoop (live : LivenessInfo) (tgtName : String) (passed : List Var)
    (loc : Nat) : List (Var × Int) → FreshVarsTy → FVResult
  | [], fv => ⟨fv, [], 0⟩
  | (v, n) :: rest, fv =>
    if n > 0 then condMsgLoop live tgtName passed loc rest fv
    else if v ∈ passed then condMsgLoop live tgtName passed loc rest fv
    else
      let r1 := issueConditionalMessage live v (.unprotectedWhileCalling v tgtName) loc fv
      let r2 := condMsgLoop live tgtName passed loc rest r1.fv
      ⟨r2.fv, r1.ems ++ r2.ems, r1.refinable + r2.refinable⟩

/-- Everything `handleCall` inspects about the interpreted instruction:
the resolved callee, the variable resolutions for the
PreserveObject/PROTECT branches, the unprotect argument, and the actual
arguments. -/
structure CallDescr where
  resolved : Option CalleeInfo
  preserveVar : Option Var
  prot : ProtectDescr
  unprotectArg : UnprotectArg
  args : List ArgDescr
deriving DecidableEq

/-- The protect/unprotect phase of `handleCall`: the
`R_PreserveObject`, `Rf_protect`/`R_ProtectWithIndex`/`R_Reprotect` and
`Rf_unprotect` branches, skipped entirely when the trace is confused
(`QUIET_WHEN_CONFUSED = true`).  The final component is true when
`handleCall` `return`s inside this phase. -/
def handleCallPhase1 (maxPstack : Nat) (isVarCheckedFresh : Var → Bool)
    (balance : Option BalanceStateTy) (d : CallDescr) (tgt : CalleeInfo)
    (fv0 : FreshVarsTy) (loc : Nat) : FreshVarsTy × List LineInfoTy × Nat × Bool :=
  if fv0.confused then (fv0, [], 0, false)
  else
    let fvA := if tgt.name = "R_PreserveObject" then handlePreserve d.preserveVar fv0
               else fv0
    if tgt.name = "Rf_protect" ∨ tgt.name = "R_ProtectWithIndex" ∨
        tgt.name = "R_Reprotect" then
      let r := handleProtectFamily maxPstack isVarCheckedFresh
        (tgt.name = "R_Reprotect") d.prot fvA loc
      (r.1.fv, r.1.ems, r.1.refinable, r.2)
    else if tgt.name = "Rf_unprotect" then
      let r := handleUnprotect balance d.unprotectArg fvA loc
      (r.1.fv, r.1.ems, r.1.refinable, r.2)
    else (fvA, [], 0, false)

/-- `handleCall` from `freshvars.cpp` (the reference configuration has
`QUIET_WHEN_CONFUSED = true`, so `confused` is the state's flag read at
entry). -/
def handleCall (maxPstack : Nat) (isVarCheckedFresh : Var → Bool)
    (live : LivenessInfo) (balance : Option BalanceStateTy) (d : CallDescr)
    (fv0 : FreshVarsTy) (loc : Nat) : FVResult :=
  match d.resolved with
  | none => ⟨fv0, [], 0⟩
  | some tgt =>
    let confused := fv0.confused
    let p1 := handleCallPhase1 maxPstack isVarCheckedFresh balance d tgt fv0 loc
    let fv1 := p1.1
    let ems1 := p1.2.1
    let ref1 := p1.2.2.1
    if p1.2.2.2 then ⟨fv1, ems1, ref1⟩
    else if !tgt.isCAllocating then ⟨fv1, ems1, ref1⟩
    else
      let ems2 := allocArgFindings tgt.name tgt.protectsArguments tgt.calleeSafeWhole
        d.args loc
      if confused then ⟨fv1, ems1 ++ ems2, ref1 + ems2.length⟩
      else
        let pr := pruneFreshVars live fv1
        let passed := passedVarsOf d.args
        let cl := condMsgLoop live tgt.name passed loc pr.fv.vars pr.fv
        ⟨cl.fv, ems1 ++ ems2 ++ pr.ems ++ cl.ems,
          ref1 + ems2.length + pr.refinable + cl.refinable⟩

/-! ## `handleLoad` (`freshvars.cpp`) -/

/-- A user of the inspected load, as far as the user scan of `handleLoad`
distinguishes: a setter call with resolved first-argument slot `fa`, a
store whose stored value is the load and whose destination is not an
alloca, or anything else. -/
inductive LoadUser
  | setterFA (fa : Var)
  | storeToNonAlloca
  | otherUser
deriving DecidableEq

/-- Call-graph/callee-protect data about the single user of the load,
when that user is a resolved call. -/
structure LoadCalleeInfo where
  name : String
  isCAllocating : Bool
  protectsArguments : Bool
  /-- `cprotect.isCalleeProtect(tgt->fun, false)` -/
  calleeProtectWhole : Bool
  /-- `aidx < tgt->fun->arg_size() && cprotect.isCalleeProtect(tgt->fun, aidx, false)` -/
  calleeProtectAt : Bool
  /-- `aidx >= tgt->fun->arg_size() || !cprotect.isCalleeSafe(tgt->fun, aidx, false)` -/
  notCalleeSafeAt : Bool
deriving DecidableEq

/-- Everything `handleLoad` inspects about a load of an alloca slot. -/
structure LoadDescr where
  var : Var
  users : List LoadUser
  hasOneUse : Bool
  lastUserTgt : Option LoadCalleeInfo
deriving DecidableEq

/-- The user scan of `handleLoad`: a setter call whose (distinct,
non-fresh) first argument implicitly protects the loaded slot, and a store
into a non-local location implicitly protects it; both erase the slot from
`vars` and stop the scan. -/
def loadUserScan (vars : List (Var × Int)) (v : Var) : List LoadUser → List (Var × Int)
  | [] => vars
  | .setterFA fa :: rest =>
    if fa ≠ v ∧ notFreshIn vars fa then eraseVar vars v
    else loadUserScan vars v rest
  | .storeToNonAlloca :: _ => eraseVar vars v
  | .otherUser :: rest => loadUserScan vars v rest

/-- `handleLoad` from `freshvars.cpp`.  `d = none` models an instruction
that is not a load of an alloca slot. -/
def handleLoad (live : LivenessInfo) (d : Option LoadDescr) (fv : FreshVarsTy)
    (loc : Nat) : FVResult :=
  if fv.confused then ⟨fv, [], 0⟩
  else
    match d with
    | none => ⟨fv, [], 0⟩
    | some ld =>
      let fl : FreshVarsTy × List LineInfoTy × Nat :=
        match lookupVar fv.condMsgs ld.var with
        | some buf => ({ fv with condMsgs := eraseVar fv.condMsgs ld.var }, buf, 1)
        | none => (fv, [], 0)
      let fv1 := fl.1
      let ems1 := fl.2.1
      let ref1 := fl.2.2
      match lookupVar fv1.vars ld.var with
      | none => ⟨fv1, ems1, ref1⟩
      | some n =>
        let fv2 : FreshVarsTy := { fv1 with vars := loadUserScan fv1.vars ld.var ld.users }
        if !ld.hasOneUse then ⟨fv2, ems1, ref1⟩
        else
          match ld.lastUserTgt with
          | none => ⟨fv2, ems1, ref1⟩
          | some tgt =>
            if !tgt.isCAllocating || tgt.protectsArguments || tgt.calleeProtectWhole then
              ⟨fv2, ems1, ref1⟩
            else if n > 0 then ⟨fv2, ems1, ref1⟩
            else if tgt.calleeProtectAt then ⟨fv2, ems1, ref1⟩
            else
              let ems3 : List LineInfoTy :=
                if tgt.notCalleeSafeAt then [⟨.freshPointerToAlloc ld.var tgt.name, loc⟩]
                else []
              let r4 := issueConditionalMessage live ld.var
                (.mayDestroyArg ld.var tgt.name) loc fv2
              ⟨r4.fv, ems1 ++ ems3 ++ r4.ems, ref1 + ems3.length + r4.refinable⟩

/-! ## `handleStore` (`freshvars.cpp`) -/

/-- A user of the stored value, as far as the protect-scan of
`handleStore` distinguishes. -/
inductive StoreValueUser
  | protectFamilyCall
  | setterCall (fa : Var) (protArgIsValue : Bool)
  | otherUser
deriving DecidableEq

/-- The source of the stored value: a resolved call (with the allocator
summary answer and the users of the value), a load of an in-bounds
element pointer derived from a load of slot `dvars` (`var = ATTRIB(var1)`
pattern), or anything else. -/
inductive StoreSrc
  | callNamed (name : String) (isPossibleAllocator : Bool) (users : List StoreValueUser)
  | derivedLoad (dvars : Var)
  | plainValue
deriving DecidableEq

/-- The instruction shape `handleStore` distinguishes: a store into the
node-stack structure (with the alias chain recognized by
`unfreshAliasedVars`), a store to the `R_PPStackTop` global (with the slot
behind the stored value when it is a load of an alloca), a store into an
alloca slot, or anything else. -/
inductive StoreDescr
  | nodeStackStore (pv : Var) (aliasChain : List Var)
  | ppTopStore (srcLoadVar : Option Var)
  | allocaStore (v : Var) (src : StoreSrc)
  | otherInstr
deriving DecidableEq

inductive StoreScanOutcome
  | handledInCall
  | implicitProtect
  | proceed
deriving DecidableEq

/-- The scan over the users of the stored value in `handleStore`: a
protect-family call means the case is handled in `handleCall`; a setter
call with a non-fresh first argument whose protected argument is not the
stored value means implicit protection. -/
def storeUserScan (vars : List (Var × Int)) : List StoreValueUser → StoreScanOutcome
  | [] => .proceed
  | .protectFamilyCall :: _ => .handledInCall
  | .setterCall fa protArgIsValue :: rest =>
    if notFreshIn vars fa ∧ !protArgIsValue then .implicitProtect
    else storeUserScan vars rest
  | .otherUser :: rest => storeUserScan vars rest

/-- `handleStore` from `freshvars.cpp`. -/
def handleStore (isVarCheckedFresh : Var → Bool) (balance : Option BalanceStateTy)
    (d : StoreDescr) (fv : FreshVarsTy) (loc : Nat) : FVResult :=
  if fv.confused then ⟨fv, [], 0⟩
  else
    match d with
    | .nodeStackStore pv chain =>
      ⟨{ fv with vars := chain.foldl eraseVar (eraseVar fv.vars pv) }, [], 0⟩
    | .ppTopStore srcLoadVar =>
      match srcLoadVar, balance with
      | some sv, some b =>
        if b.topSaveVar = some sv then
          -- restore of the protection stack top (`myassert(newDepth >= 0)`)
          let newDepth := b.savedDepth
          let curDepth : Int := fv.pstack.length
          if newDepth > curDepth then
            ⟨{ fv with confused := true }, [⟨.restoreTooHigh, loc⟩], 0⟩
          else if newDepth = curDepth then ⟨fv, [], 0⟩
          else
            let r := unprotectLoop (fv.pstack.length - newDepth.toNat) fv
            ⟨r.1, [], r.2⟩
        else ⟨{ fv with confused := true }, [⟨.manipulatesPPTop, loc⟩], 0⟩
      | _, _ => ⟨{ fv with confused := true }, [⟨.manipulatesPPTop, loc⟩], 0⟩
    | .allocaStore v src =>
      if !isVarCheckedFresh v then ⟨fv, [], 0⟩
      else
        -- the slot is being overwritten: erase its conditional messages
        let fv1 : FreshVarsTy := { fv with condMsgs := eraseVar fv.condMsgs v }
        match src with
        | .callNamed name isPossibleAllocator users =>
          if name = "Rf_protect" ∨ name = "Rf_protectWithIndex" ∨ name = "Rf_Reprotect" then
            ⟨fv1, [], 0⟩
          else if isPossibleAllocator then
            match storeUserScan fv1.vars users with
            | .handledInCall => ⟨fv1, [], 0⟩
            | .implicitProtect => ⟨{ fv1 with vars := eraseVar fv1.vars v }, [], 0⟩
            | .proceed => ⟨{ fv1 with vars := setVar fv1.vars v 0 }, [], 0⟩
          else ⟨{ fv1 with vars := eraseVar fv1.vars v }, [], 0⟩
        | .derivedLoad dvars =>
          if isVarCheckedFresh dvars ∧ lookupVar fv1.vars dvars = some 0 then
            ⟨{ fv1 with vars := setVar fv1.vars v 0 }, [], 0⟩
          else ⟨{ fv1 with vars := eraseVar fv1.vars v }, [], 0⟩
        | .plainValue => ⟨{ fv1 with vars := eraseVar fv1.vars v }, [], 0⟩
    | .otherInstr => ⟨fv, [], 0⟩

/-- `handleFreshVarsForNonTerminator`: `handleCall`, then `handleLoad`,
then `handleStore` on the same instruction. -/
def handleFreshVarsForNonTerminator (maxPstack : Nat) (isVarCheckedFresh : Var → Bool)
    (live : LivenessInfo) (balance : Option BalanceStateTy) (dc : CallDescr)
    (dl : Option LoadDescr) (ds : StoreDescr) (fv : FreshVarsTy) (loc : Nat) : FVResult :=
  let r1 := handleCall maxPstack isVarCheckedFresh live balance dc fv loc
  let r2 := handleLoad live dl r1.fv loc
  let r3 := handleStore isVarCheckedFresh balance ds r2.fv loc
  ⟨r3.fv, r1.ems ++ r2.ems ++ r3.ems, r1.refinable + r2.refinable + r3.refinable⟩

/-! ## Guard domains (`guards.h`) -/

inductive IntGuardState
  | IGS_ZERO
  | IGS_NONZERO
  | IGS_UNKNOWN
deriving DecidableEq

inductive SEXPGuardState
  | SGS_NIL
  | SGS_SYMBOL
  | SGS_NONNIL
  | SGS_UNKNOWN
deriving DecidableEq

/-- `SEXPGuardTy` from `guards.h`: a guard state with the symbol name
(empty unless the state is `SGS_SYMBOL`). -/
structure SEXPGuardTy where
  state : SEXPGuardState
  symbolName : String
deriving DecidableEq

/-! ## The checking state of `bcheck.cpp` -/

/-- `BcheckStateTy`: a basic block together with the values of all four
abstract domains.  `bb` is the block identifier. -/
structure BcheckStateTy where
  bb : Nat
  balance : BalanceStateTy
  intGuards : List (Var × IntGuardState)
  sexpGuards : List (Var × SEXPGuardTy)
  freshVars : FreshVarsTy
deriving DecidableEq

/-- Modelled from the spec: `hash_combine` (defined in the absent
`common.h`) is the structural hash combiner; the standard boost formula
on 64-bit `size_t`. -/
def hash_combine (seed v : Nat) : Nat :=
  seed ^^^ ((v + 0x9e3779b9 + seed * 64 + seed / 4) % (2 ^ 64))

/-- Encoding of a C `int` as hashed (two's-complement value). -/
def intCode (i : Int) : Nat := (i % (2 ^ 64 : Int)).toNat

/-- Encoding of a hashed `std::string`. -/
def strCode (s : String) : Nat :=
  s.foldl (fun h c => hash_combine h c.toNat) 5381

/-- The C enum value of an `IntGuardState`. -/
def igsCode : IntGuardState → Nat
  | .IGS_ZERO => 0
  | .IGS_NONZERO => 1
  | .IGS_UNKNOWN => 2

/-- The C enum value of an `SEXPGuardState`. -/
def sgsCode : SEXPGuardState → Nat
  | .SGS_NIL => 0
  | .SGS_SYMBOL => 1
  | .SGS_NONNIL => 2
  | .SGS_UNKNOWN => 3

/-- The C enum value of a `CountState`. -/
def countStateCode : CountState → Nat
  | .CS_NONE => 0
  | .CS_EXACT => 1
  | .CS_DIFF => 2

/-- Encoding of a protect-stack entry pointer (`NULL` for anonymous). -/
def optVarCode : Option Var → Nat
  | none => 0
  | some v => v + 1

/-- Stand-in for the address of an interned `LineInfoTy` (the hash
combines the buffer entries by pointer). -/
def lineInfoCode (l : LineInfoTy) : Nat :=
  let d : Nat :=
    match l.msg with
    | .unprotectTooMany c s => hash_combine (hash_combine 1 c) s
    | .unsupportedUnprotect => 2
    | .pstackTooDeep => 3
    | .restoreTooHigh => 4
    | .manipulatesPPTop => 5
    | .allocArgAlloc t s => hash_combine (hash_combine 6 (strCode t)) (strCode s)
    | .unprotectedWhileCalling v t => hash_combine (hash_combine 7 v) (strCode t)
    | .freshPointerToAlloc v t => hash_combine (hash_combine 8 v) (strCode t)
    | .mayDestroyArg v t => hash_combine (hash_combine 9 v) (strCode t)
  hash_combine d l.loc

/-- `BcheckStateTy::hash()` from `bcheck.cpp`, combining (in source
order): the block, `balance.depth`, `balance.count`, `balance.savedDepth`
("not including topSaveVar"), `balance.countState`, the int guards, the
SEXP guards (with the symbol name when the state is `SGS_SYMBOL`), the
fresh vars with their protect counts, the conditional-message buffers
(sizes and entries — not their keys), and the protect stack.
`counterVar`, `topSaveVar` and the two `confused` flags are not hashed. -/
def BcheckStateTy.hash (s : BcheckStateTy) : Nat :=
  let res := 0
  let res := hash_combine res s.bb
  let res := hash_combine res (intCode s.balance.depth)
  let res := hash_combine res (intCode s.balance.count)
  let res := hash_combine res (intCode s.balance.savedDepth)
  let res := hash_combine res (countStateCode s.balance.countState)
  let res := hash_combine res s.intGuards.length
  let res := s.intGuards.foldl
    (fun r p => hash_combine (hash_combine r p.1) (igsCode p.2)) res
  let res := hash_combine res s.sexpGuards.length
  let res := s.sexpGuards.foldl
    (fun r p =>
      let r := hash_combine r p.1
      let r := hash_combine r (sgsCode p.2.state)
      if p.2.state = .SGS_SYMBOL then hash_combine r (strCode p.2.symbolName) else r)
    res
  let res := hash_combine res s.freshVars.vars.length
  let res := s.freshVars.vars.foldl
    (fun r p => hash_combine (hash_combine r p.1) (intCode p.2)) res
  let res := hash_combine res s.freshVars.condMsgs.length
  let res := s.freshVars.condMsgs.foldl
    (fun r p =>
      let r := hash_combine r p.2.length
      p.2.foldl (fun r l => hash_combine r (lineInfoCode l)) r)
    res
  let res := hash_combine res s.freshVars.pstack.length
  s.freshVars.pstack.foldl (fun r t => hash_combine r (optVarCode t)) res

/-- `BcheckStateTy_equal` from `bcheck.cpp`, in the reference
configuration `FULL_COMPARISON = true`: structural comparison of the
block, every balance field, both guard maps, and all four fresh-vars
components. -/
def BcheckStateTy_equal (lhs rhs : BcheckStateTy) : Bool :=
  decide (lhs.bb = rhs.bb) &&
  decide (lhs.balance.depth = rhs.balance.depth) &&
  decide (lhs.balance.savedDepth = rhs.balance.savedDepth) &&
  decide (lhs.balance.count = rhs.balance.count) &&
  decide (lhs.balance.countState = rhs.balance.countState) &&
  decide (lhs.balance.counterVar = rhs.balance.counterVar) &&
  decide (lhs.balance.confused = rhs.balance.confused) &&
  decide (lhs.balance.topSaveVar = rhs.balance.topSaveVar) &&
  decide (lhs.intGuards = rhs.intGuards) &&
  decide (lhs.sexpGuards = rhs.sexpGuards) &&
  decide (lhs.freshVars.vars = rhs.freshVars.vars) &&
  decide (lhs.freshVars.condMsgs = rhs.freshVars.condMsgs) &&
  decide (lhs.freshVars.pstack = rhs.freshVars.pstack) &&
  decide (lhs.freshVars.confused = rhs.freshVars.confused)

/-- `BcheckStateTy::add()` from `bcheck.cpp`: intern the state into the
visited set (`doneSet`, an `unordered_set` keyed by the cached hash code
with `BcheckStateTy_equal` as the equality).  A new state is inserted and
pushed on the work-list (returning true); a duplicate is deleted
("state suicide") leaving both sets unchanged (returning false). -/
def BcheckStateTy.add (s : BcheckStateTy) (doneSet workList : List BcheckStateTy) :
    Bool × List BcheckStateTy × List BcheckStateTy :=
  if doneSet.any (fun t => decide (t.hash = s.hash) && BcheckStateTy_equal t s) then
    (false, doneSet, workList)
  else
    (true, s :: doneSet, s :: workList)

/-! ## The work-list engine of `checkFunction` (`bcheck.cpp`) -/

/-- What one turn of the work-list loop of `checkFunction` does before
processing any instruction: check the loop condition, check the
restartable early exit, pop a state, skip blocks on error paths, and
enforce the `MAX_STATES` bound.  `restartExit` and `abandoned` both model
`clearStates(); return;` — the run ends and every accumulated state is
released. -/
inductive DequeueOutcome
  | finished
  | restartExit
  | abandoned
  | skipped (workList doneSet : List BcheckStateTy)
  | proceed (s : BcheckStateTy) (workList doneSet : List BcheckStateTy)
deriving DecidableEq

/-- The dequeue phase of the work-list loop: `while (!workList.empty())`,
the restartable early exit, `workList.pop()`, the error-basic-block skip
(`continue`), and the `doneSet.size() > MAX_STATES` abandon
(`clearStates(); return;`). -/
def dequeueStep (maxStates : Nat) (errorBlocks : List Nat) (restartable : Bool)
    (refinableInfos : Nat) (workList doneSet : List BcheckStateTy) : DequeueOutcome :=
  match workList with
  | [] => .finished
  | s :: rest =>
    if restartable ∧ refinableInfos > 0 then .restartExit
    else if s.bb ∈ errorBlocks then .skipped rest doneSet
    else if doneSet.length > maxStates then .abandoned
    else .proceed s rest doneSet

/-! ## The adaptive-refinement controller (`FunctionChecker::checkFunction`,
`bcheck.cpp`) -/

/-- `restartable` from `bcheck.cpp`: some guard precision is still
disabled and not avoided for this function. -/
def restartableFlag (avoidIG avoidSG ig sg : Bool) : Bool :=
  (!ig && !avoidIG) || (!sg && !avoidSG)

/-- The escalation step of the controller: enable integer guards first
when possible, SEXP guards otherwise. -/
def nextPrecision (avoidIG avoidSG ig sg : Bool) : Bool × Bool :=
  if !ig && !avoidIG then (true, sg)
  else if !sg && !avoidSG then (ig, true)
  else (ig, sg)

/-- The outcome of one inner `checkFunction` run at a given precision:
the `refinableInfos` tally and the diagnostics the run handed to the
(buffering, `UNIQUE_MSG`) line messenger. -/
structure RunResult where
  refinable : Nat
  diags : List LineInfoTy

/-- The `for(;;)` restart loop of the outer `checkFunction`, with the
messenger buffer made explicit: each turn runs the inner check, appends
its diagnostics to the buffer, and either stops (flushing the buffer) or
discards the buffer (`m.msg.clear()`) and reruns at the escalated
precision.  The fuel argument bounds the recursion; fuel 3 is enough
because every restart enables one more guard precision. -/
def refineAux (avoidIG avoidSG : Bool) (run : Bool → Bool → RunResult) :
    Nat → Bool → Bool → List LineInfoTy →
      List (Bool × Bool × RunResult) × List LineInfoTy
  | 0, _, _, buf => ([], buf)
  | fuel + 1, ig, sg, buf =>
    let r := run ig sg
    let buf1 := buf ++ r.diags
    if restartableFlag avoidIG avoidSG ig sg ∧ r.refinable > 0 then
      let p := nextPrecision avoidIG avoidSG ig sg
      let rest := refineAux avoidIG avoidSG run fuel p.1 p.2 []
      ((ig, sg, r) :: rest.1, rest.2)
    else ([(ig, sg, r)], buf1)

/-- The per-function run sequence of the controller, starting from the
baseline precision (both guard domains disabled). -/
def checkFunctionRuns (avoidIG avoidSG : Bool) (run : Bool → Bool → RunResult) :
    List (Bool × Bool × RunResult) :=
  (refineAux avoidIG avoidSG run 3 false false []).1

/-- The diagnostics that survive to the final flush: every restarted
run's diagnostics were discarded by `m.msg.clear()`. -/
def checkFunctionEmitted (avoidIG avoidSG : Bool) (run : Bool → Bool → RunResult) :
    List LineInfoTy :=
  (refineAux avoidIG avoidSG run 3 false false []).2

/-! ## Lemmas about the fresh-vars protect stack -/

theorem unprotectOne_pstack (fv : FreshVarsTy) :
    (unprotectOne fv).1.pstack = fv.pstack.tail := by
  rcases hfv : fv.pstack with _ | ⟨t, rest⟩
  · simp [unprotectOne, hfv]
  · rcases t with _ | v
    · simp [unprotectOne, hfv]
    · rcases h : lookupVar fv.vars v with _ | n
      · simp [unprotectOne, hfv, h]
      · simp only [unprotectOne, hfv, h]
        split <;> rfl

theorem unprotectLoop_pstack (k : Nat) (fv : FreshVarsTy) :
    (unprotectLoop k fv).1.pstack = fv.pstack.drop k := by
  induction k generalizing fv with
  | zero => simp [unprotectLoop]
  | succ k ih =>
    show (unprotectLoop k (unprotectOne fv).1).1.pstack = fv.pstack.drop (k + 1)
    rw [ih, unprotectOne_pstack, List.drop_tail]

/-- C3: an unprotect whose count `k` is known (a constant, or a load of
the recognized counter variable in `CS_EXACT` state) and does not exceed
the protect-stack size runs exactly `k` iterations of `unprotectOne` and
emits no diagnostic (conjunct 1); the loop pops exactly the `k` top
elements (conjunct 2); one iteration popping a named slot present in
`vars` decrements its protect count with a clamp at 0, silently (conjunct
3: no emission field at all, only the `refinableInfos` increment on a
clamp). -/
theorem unprotect_known_count :
    (∀ (balance : Option BalanceStateTy) (arg : UnprotectArg) (fv : FreshVarsTy)
        (loc k : Nat), resolveUnprotectCount balance arg = some k →
        k ≤ fv.pstack.length →
        handleUnprotect balance arg fv loc =
          (⟨(unprotectLoop k fv).1, [], (unprotectLoop k fv).2⟩, false)) ∧
    (∀ (k : Nat) (fv : FreshVarsTy),
        (unprotectLoop k fv).1.pstack = fv.pstack.drop k) ∧
    (∀ (fv : FreshVarsTy) (v : Var) (n : Int) (rest : List (Option Var)),
        fv.pstack = some v :: rest → lookupVar fv.vars v = some n →
        unprotectOne fv =
          ({ fv with pstack := rest, vars := setVar fv.vars v (max (n - 1) 0) },
            if n - 1 < 0 then 1 else 0)) := by
  refine ⟨?_, unprotectLoop_pstack, ?_⟩
  · intro balance arg fv loc k hres hk
    simp only [handleUnprotect, hres]
    rw [if_neg (by omega)]
  · intro fv v n rest hp hl
    simp only [unprotectOne, hp, hl]
    rcases lt_or_le (n - 1) 0 with h | h
    · rw [max_eq_right h.le]
      have h' : n < 1 := by omega
      simp [h', h]
    · rw [max_eq_left h]
      have h' : ¬n < 1 := by omega
      simp [h', not_lt.mpr h]

/-- Witness for C3 at a concrete state: `UNPROTECT(1)` on a stack holding
slot 3 with protect count 2. -/
theorem unprotect_known_count_witness :
    handleUnprotect none (.constArg 1) ⟨[(3, 2)], [], [some 3], false⟩ 4 =
      (⟨(unprotectLoop 1 ⟨[(3, 2)], [], [some 3], false⟩).1, [],
        (unprotectLoop 1 ⟨[(3, 2)], [], [some 3], false⟩).2⟩, false) ∧
    unprotectOne ⟨[(3, 2)], [], [some 3], false⟩ =
      (⟨setVar [(3, 2)] 3 (max ((2 : Int) - 1) 0), [], [], false⟩,
        if (2 : Int) - 1 < 0 then 1 else 0) :=
  ⟨unprotect_known_count.1 none (.constArg 1) ⟨[(3, 2)], [], [some 3], false⟩ 4 1 rfl
      (by decide),
   unprotect_known_count.2.2 ⟨[(3, 2)], [], [some 3], false⟩ 3 2 [] rfl rfl⟩

/-- C4: an unprotect with known count `k` strictly greater than the
protect-stack size emits the "unprotect beyond stack" finding, sets the
fresh-vars `confused` flag, and returns with the state otherwise
unchanged: no pop and no protect-count change. -/
theorem unprotect_beyond_stack (balance : Option BalanceStateTy) (arg : UnprotectArg)
    (fv : FreshVarsTy) (loc k : Nat) (hres : resolveUnprotectCount balance arg = some k)
    (hover : k > fv.pstack.length) :
    handleUnprotect balance arg fv loc =
      (⟨{ fv with confused := true },
        [⟨.unprotectTooMany k fv.pstack.length, loc⟩], 1⟩, true) ∧
    ({ fv with confused := true } : FreshVarsTy).pstack = fv.pstack ∧
    ({ fv with confused := true } : FreshVarsTy).vars = fv.vars := by
  refine ⟨?_, rfl, rfl⟩
  simp only [handleUnprotect, hres]
  rw [if_pos hover]

/-- Witness for C4: `UNPROTECT(2)` on a singleton protect stack. -/
theorem unprotect_beyond_stack_witness :
    handleUnprotect none (.constArg 2) ⟨[(3, 1)], [], [some 3], false⟩ 9 =
      (⟨{ (⟨[(3, 1)], [], [some 3], false⟩ : FreshVarsTy) with confused := true },
        [⟨.unprotectTooMany 2 1, 9⟩], 1⟩, true) := by
  have h := unprotect_beyond_stack none (.constArg 2) ⟨[(3, 1)], [], [some 3], false⟩ 9 2
    rfl (by decide)
  exact h.1

/-! ## Protect-stack bound lemmas (towards C5) -/

theorem unprotectLoop_pstack_le (k : Nat) (fv : FreshVarsTy) :
    (unprotectLoop k fv).1.pstack.length ≤ fv.pstack.length := by
  rw [unprotectLoop_pstack, List.length_drop]
  omega

theorem issueConditionalMessage_pstack (live : LivenessInfo) (v : Var) (d : Diag)
    (loc : Nat) (fv : FreshVarsTy) :
    (issueConditionalMessage live v d loc fv).fv.pstack = fv.pstack := by
  unfold issueConditionalMessage
  split
  · rfl
  · split <;> rfl

theorem pruneFreshVars_pstack (live : LivenessInfo) (fv : FreshVarsTy) :
    (pruneFreshVars live fv).fv.pstack = fv.pstack := rfl

theorem condMsgLoop_pstack (live : LivenessInfo) (tgtName : String) (passed : List Var)
    (loc : Nat) (vs : List (Var × Int)) (fv : FreshVarsTy) :
    (condMsgLoop live tgtName passed loc vs fv).fv.pstack = fv.pstack := by
  induction vs generalizing fv with
  | nil => rfl
  | cons p rest ih =>
    obtain ⟨v, n⟩ := p
    simp only [condMsgLoop]
    split
    · exact ih fv
    · split
      · exact ih fv
      · rw [ih, issueConditionalMessage_pstack]

theorem handleProtectFamily_pstack_le (maxP : Nat) (cf : Var → Bool) (rep : Bool)
    (d : ProtectDescr) (fv : FreshVarsTy) (loc : Nat)
    (h : fv.pstack.length ≤ maxP) :
    (handleProtectFamily maxP cf rep d fv loc).1.fv.pstack.length ≤ maxP := by
  simp only [handleProtectFamily]
  split
  · split
    · exact h
    · split
      · split <;> exact h
      · exact h
  · split
    · simp [unprotectAll]
    · rename_i hne
      split
      · split <;> (simp only [List.length_cons]; omega)
      · simp only [List.length_cons]
        omega

theorem handleUnprotect_pstack_le (balance : Option BalanceStateTy) (arg : UnprotectArg)
    (fv : FreshVarsTy) (loc : Nat) :
    (handleUnprotect balance arg fv loc).1.fv.pstack.length ≤ fv.pstack.length := by
  unfold handleUnprotect
  split
  · split
    · exact le_refl _
    · exact unprotectLoop_pstack_le _ _
  · simp [unprotectAll]

theorem handlePreserve_pstack (pv : Option Var) (fv : FreshVarsTy) :
    (handlePreserve pv fv).pstack = fv.pstack := by
  unfold handlePreserve
  split <;> rfl

theorem handleCallPhase1_pstack_le (maxP : Nat) (cf : Var → Bool)
    (balance : Option BalanceStateTy) (d : CallDescr) (tgt : CalleeInfo)
    (fv : FreshVarsTy) (loc : Nat) (h : fv.pstack.length ≤ maxP) :
    (handleCallPhase1 maxP cf balance d tgt fv loc).1.pstack.length ≤ maxP := by
  unfold handleCallPhase1
  split
  · exact h
  · dsimp only
    have hA : (if tgt.name = "R_PreserveObject" then handlePreserve d.preserveVar fv
        else fv).pstack = fv.pstack := by
      split
      · exact handlePreserve_pstack _ _
      · rfl
    generalize hg : (if tgt.name = "R_PreserveObject" then handlePreserve d.preserveVar fv
        else fv) = fvA at hA ⊢
    split
    · exact handleProtectFamily_pstack_le _ _ _ _ _ _ (by rw [hA]; exact h)
    · split
      · exact le_trans (handleUnprotect_pstack_le _ _ _ _) (by rw [hA]; exact h)
      · rw [hA]; exact h

theorem handleCall_pstack_le (maxP : Nat) (cf : Var → Bool) (live : LivenessInfo)
    (balance : Option BalanceStateTy) (d : CallDescr) (fv : FreshVarsTy) (loc : Nat)
    (h : fv.pstack.length ≤ maxP) :
    (handleCall maxP cf live balance d fv loc).fv.pstack.length ≤ maxP := by
  unfold handleCall
  split
  · exact h
  · rename_i tgt heq
    dsimp only
    have h1 := handleCallPhase1_pstack_le maxP cf balance d tgt fv loc h
    split
    · exact h1
    · split
      · exact h1
      · split
        · exact h1
        · rw [condMsgLoop_pstack, pruneFreshVars_pstack]
          exact h1

theorem handleLoad_pstack (live : LivenessInfo) (d : Option LoadDescr)
    (fv : FreshVarsTy) (loc : Nat) :
    (handleLoad live d fv loc).fv.pstack = fv.pstack := by
  unfold handleLoad
  repeat'
    first
      | rfl
      | (rw [issueConditionalMessage_pstack])
      | split
      | dsimp only

theorem handleStore_pstack_le (cf : Var → Bool) (balance : Option BalanceStateTy)
    (d : StoreDescr) (fv : FreshVarsTy) (loc : Nat) :
    (handleStore cf balance d fv loc).fv.pstack.length ≤ fv.pstack.length := by
  unfold handleStore
  repeat'
    first
      | exact Nat.le_refl _
      | exact unprotectLoop_pstack_le _ _
      | split
      | dsimp only

/-- C5: the protect stack respects the `MAX_PSTACK_SIZE` bound.  Conjunct
1: the initial state satisfies it.  Conjuncts 2–4: every fresh-vars
transfer (`handleCall`, `handleStore`, `handleLoad`) preserves
`pstack.length ≤ MAX_PSTACK_SIZE`.  Conjunct 5: a (non-reprotect) protect
issued when the stack is exactly at the bound does not push: it reports
"protect stack too deep", clears the protect stack, zeroes every protect
count, sets the `confused` flag, and returns. -/
theorem pstack_bound (maxP : Nat) :
    FreshVarsTy.initial.pstack.length ≤ maxP ∧
    (∀ (cf : Var → Bool) (live : LivenessInfo) (balance : Option BalanceStateTy)
        (d : CallDescr) (fv : FreshVarsTy) (loc : Nat), fv.pstack.length ≤ maxP →
        (handleCall maxP cf live balance d fv loc).fv.pstack.length ≤ maxP) ∧
    (∀ (cf : Var → Bool) (balance : Option BalanceStateTy) (d : StoreDescr)
        (fv : FreshVarsTy) (loc : Nat), fv.pstack.length ≤ maxP →
        (handleStore cf balance d fv loc).fv.pstack.length ≤ maxP) ∧
    (∀ (live : LivenessInfo) (d : Option LoadDescr) (fv : FreshVarsTy) (loc : Nat),
        fv.pstack.length ≤ maxP →
        (handleLoad live d fv loc).fv.pstack.length ≤ maxP) ∧
    (∀ (cf : Var → Bool) (d : ProtectDescr) (fv : FreshVarsTy) (loc : Nat),
        fv.pstack.length = maxP →
        (handleProtectFamily maxP cf false d fv loc).1.fv.pstack = [] ∧
        (∀ p ∈ (handleProtectFamily maxP cf false d fv loc).1.fv.vars, p.2 = (0 : Int)) ∧
        (handleProtectFamily maxP cf false d fv loc).1.fv.confused = true ∧
        (handleProtectFamily maxP cf false d fv loc).1.ems = [⟨.pstackTooDeep, 0⟩] ∧
        (handleProtectFamily maxP cf false d fv loc).2 = true) := by
  refine ⟨by simp [FreshVarsTy.initial], handleCall_pstack_le maxP, ?_, ?_, ?_⟩
  · intro cf balance d fv loc h
    exact le_trans (handleStore_pstack_le cf balance d fv loc) h
  · intro live d fv loc h
    rw [handleLoad_pstack]
    exact h
  · intro cf d fv loc hcap
    have hcap1 : ({ fv with vars := (resolveProtectVar fv.vars cf d).2 } :
        FreshVarsTy).pstack.length = maxP := hcap
    have hred : handleProtectFamily maxP cf false d fv loc =
        (⟨{ unprotectAll { fv with vars := (resolveProtectVar fv.vars cf d).2 } with
            confused := true }, [⟨.pstackTooDeep, 0⟩], 1⟩, true) := by
      unfold handleProtectFamily
      dsimp only
      rw [if_neg (by simp), if_pos hcap1]
    rw [hred]
    refine ⟨rfl, ?_, rfl, rfl, rfl⟩
    intro p hp
    simp only [unprotectAll, List.mem_map] at hp
    obtain ⟨q, _, hq⟩ := hp
    rw [← hq]

/-- Witness for C5: the transfer on a stack of size 1 with
`MAX_PSTACK_SIZE = 1`, and a protect at the cap. -/
theorem pstack_bound_witness :
    (handleCall 1 (fun _ => true) ⟨fun _ => false, fun _ => false, fun _ => false⟩ none
        ⟨none, none, ⟨none, none, [], none⟩, .otherArg, []⟩
        ⟨[(3, 1)], [], [some 3], false⟩ 2).fv.pstack.length ≤ 1 ∧
    (handleProtectFamily 1 (fun _ => true) false ⟨some 3, none, [], none⟩
        ⟨[(3, 1)], [], [some 3], false⟩ 2).1.fv.pstack = [] := by
  have h := pstack_bound 1
  exact ⟨h.2.1 (fun _ => true) ⟨fun _ => false, fun _ => false, fun _ => false⟩ none
      ⟨none, none, ⟨none, none, [], none⟩, .otherArg, []⟩
      ⟨[(3, 1)], [], [some 3], false⟩ 2 (by decide),
    (h.2.2.2.2 (fun _ => true) ⟨some 3, none, [], none⟩
      ⟨[(3, 1)], [], [some 3], false⟩ 2 (by decide)).1⟩

/-! ## Lemmas about `lookupVar`, `eraseVar` and `setVar` -/

theorem lookupVar_eq_none_of_not_mem {α : Type} (m : List (Var × α)) (v : Var)
    (h : v ∉ m.map Prod.fst) : lookupVar m v = none := by
  induction m with
  | nil => rfl
  | cons p rest ih =>
    obtain ⟨k, a⟩ := p
    simp only [List.map_cons, List.mem_cons, not_or] at h
    simp only [lookupVar, if_neg (Ne.symm h.1)]
    exact ih h.2

theorem eraseVar_keys_sublist {α : Type} (m : List (Var × α)) (v : Var) :
    ((eraseVar m v).map Prod.fst).Sublist (m.map Prod.fst) := by
  induction m with
  | nil => exact List.Sublist.refl _
  | cons p rest ih =>
    obtain ⟨k, a⟩ := p
    by_cases hk : k = v
    · simp only [eraseVar, if_pos hk, List.map_cons]
      exact List.sublist_cons_of_sublist _ (List.Sublist.refl _)
    · simp only [eraseVar, if_neg hk, List.map_cons]
      exact List.Sublist.cons₂ _ ih

theorem lookupVar_setVar_self {α : Type} (m : List (Var × α)) (v : Var) (a : α) :
    lookupVar (setVar m v a) v = some a := by
  induction m with
  | nil => simp [setVar, lookupVar]
  | cons p rest ih =>
    obtain ⟨k, b⟩ := p
    by_cases hk : k = v
    · simp [setVar, lookupVar, hk]
    · simp [setVar, lookupVar, hk, ih]

/-! ## The behaviour of `pruneFreshVars` (towards C6) -/

theorem if_cond_cons {α : Type} (w v : Var) (ks : List Var) (P : Prop) [Decidable P]
    (x y : Option α) (hw : w ≠ v) :
    (if w ∈ v :: ks ∧ P then x else y) = if w ∈ ks ∧ P then x else y := by
  by_cases hm : w ∈ ks ∧ P
  · rw [if_pos hm, if_pos ⟨List.mem_cons_of_mem _ hm.1, hm.2⟩]
  · rw [if_neg hm, if_neg ?_]
    intro hc
    exact hm ⟨(List.mem_cons.mp hc.1).resolve_left hw, hc.2⟩

theorem pruneVarsGo_spec (live : LivenessInfo) :
    ∀ (vs : List (Var × Int)) (cms : List (Var × DelayedMsgs)),
      (vs.map Prod.fst).Nodup → (cms.map Prod.fst).Nodup →
      (pruneVarsGo live vs cms).1 = vs.filter (fun p => live.possiblyUsed p.1) ∧
      (∀ w, lookupVar (pruneVarsGo live vs cms).2.1 w =
        if w ∈ vs.map Prod.fst ∧
            (live.possiblyUsed w = false ∨ live.possiblyKilled w = false)
        then none else lookupVar cms w) ∧
      (∀ v n buf, (v, n) ∈ vs → live.possiblyUsed v = true →
        live.possiblyKilled v = false → lookupVar cms v = some buf →
        buf.Sublist (pruneVarsGo live vs cms).2.2.1) ∧
      (∀ e, e ∈ (pruneVarsGo live vs cms).2.2.1 → ∃ w n buf, (w, n) ∈ vs ∧
        live.possiblyUsed w = true ∧ live.possiblyKilled w = false ∧
        lookupVar cms w = some buf ∧ e ∈ buf) := by
  intro vs
  induction vs with
  | nil =>
    intro cms _ _
    refine ⟨rfl, ?_, ?_, ?_⟩
    · intro w; simp [pruneVarsGo]
    · intro v n buf hmem; simp at hmem
    · intro e he; simp [pruneVarsGo] at he
  | cons p rest ih =>
    obtain ⟨v, n⟩ := p
    intro cms hnd hcms
    simp only [List.map_cons, List.nodup_cons] at hnd
    have hvrest : v ∉ rest.map Prod.fst := hnd.1
    have hndr : (rest.map Prod.fst).Nodup := hnd.2
    have hcmse : ((eraseVar cms v).map Prod.fst).Nodup :=
      hcms.sublist (eraseVar_keys_sublist cms v)
    by_cases hu : live.possiblyUsed v = true
    · by_cases hk : live.possiblyKilled v = true
      · -- possibly used and possibly killed: keep the entry, leave condMsgs
        have hred : pruneVarsGo live ((v, n) :: rest) cms =
            ((v, n) :: (pruneVarsGo live rest cms).1,
              (pruneVarsGo live rest cms).2.1,
              (pruneVarsGo live rest cms).2.2.1, (pruneVarsGo live rest cms).2.2.2) := by
          simp [pruneVarsGo, hu, hk]
        obtain ⟨ih1, ih2, ih3, ih4⟩ := ih cms hndr hcms
        rw [hred]
        refine ⟨?_, ?_, ?_, ?_⟩
        · simp [List.filter_cons, hu, ih1]
        · intro w
          rw [ih2 w]
          by_cases hw : w = v
          · subst hw
            rw [if_neg (by simp [hvrest]), if_neg (by simp [hu, hk])]
          · exact (if_cond_cons w v _ _ _ _ hw).symm
        · intro v' n' buf hmem hu' hk' hlk
          rcases List.mem_cons.mp hmem with he | hr
          · exfalso
            have hv' : v' = v := (Prod.mk.inj he).1
            rw [hv', hk] at hk'
            exact absurd hk' (by simp)
          · exact ih3 v' n' buf hr hu' hk' hlk
        · intro e he
          obtain ⟨w, n', buf, hmem, h1, h2, h3, h4⟩ := ih4 e he
          exact ⟨w, n', buf, List.mem_cons_of_mem _ hmem, h1, h2, h3, h4⟩
      · -- possibly used, not possibly killed: flush the conditional messages
        replace hk : live.possiblyKilled v = false := by
          cases h : live.possiblyKilled v
          · rfl
          · exact absurd h hk
        rcases hcv : lookupVar cms v with _ | buf0
        · -- no pending messages: recurse on the unchanged map
          have hred : pruneVarsGo live ((v, n) :: rest) cms =
              ((v, n) :: (pruneVarsGo live rest cms).1,
                (pruneVarsGo live rest cms).2.1,
                (pruneVarsGo live rest cms).2.2.1, (pruneVarsGo live rest cms).2.2.2) := by
            simp [pruneVarsGo, hu, hk, hcv]
          obtain ⟨ih1, ih2, ih3, ih4⟩ := ih cms hndr hcms
          rw [hred]
          refine ⟨?_, ?_, ?_, ?_⟩
          · simp [List.filter_cons, hu, ih1]
          · intro w
            rw [ih2 w]
            by_cases hw : w = v
            · subst hw
              rw [if_neg (by simp [hvrest]), if_pos (by simp [hk]), hcv]
            · exact (if_cond_cons w v _ _ _ _ hw).symm
          · intro v' n' buf hmem hu' hk' hlk
            rcases List.mem_cons.mp hmem with he | hr
            · exfalso
              have hv' : v' = v := (Prod.mk.inj he).1
              rw [hv', hcv] at hlk
              exact Option.noConfusion hlk
            · exact ih3 v' n' buf hr hu' hk' hlk
          · intro e he
            obtain ⟨w, n', buf, hmem, h1, h2, h3, h4⟩ := ih4 e he
            exact ⟨w, n', buf, List.mem_cons_of_mem _ hmem, h1, h2, h3, h4⟩
        · -- pending messages: emit them, drop them from the map
          have hred : pruneVarsGo live ((v, n) :: rest) cms =
              ((v, n) :: (pruneVarsGo live rest (eraseVar cms v)).1,
                (pruneVarsGo live rest (eraseVar cms v)).2.1,
                buf0 ++ (pruneVarsGo live rest (eraseVar cms v)).2.2.1,
                (pruneVarsGo live rest (eraseVar cms v)).2.2.2 + 1) := by
            simp [pruneVarsGo, hu, hk, hcv]
          obtain ⟨ih1, ih2, ih3, ih4⟩ := ih (eraseVar cms v) hndr hcmse
          rw [hred]
          refine ⟨?_, ?_, ?_, ?_⟩
          · simp [List.filter_cons, hu, ih1]
          · intro w
            rw [ih2 w]
            by_cases hw : w = v
            · subst hw
              rw [if_neg (by simp [hvrest]), if_pos (by simp [hk]),
                lookupVar_eraseVar_self cms w hcms]
            · rw [lookupVar_eraseVar_ne cms v w (fun h => hw h.symm)]
              exact (if_cond_cons w v _ _ _ _ hw).symm
          · intro v' n' buf hmem hu' hk' hlk
            rcases List.mem_cons.mp hmem with he | hr
            · have hv' : v' = v := (Prod.mk.inj he).1
              rw [hv', hcv] at hlk
              obtain rfl : buf0 = buf := Option.some.inj hlk
              exact List.sublist_append_left _ _
            · have hv' : v' ≠ v := by
                intro h
                exact hvrest (h ▸ List.mem_map.mpr ⟨(v', n'), hr, rfl⟩)
              have hlk' : lookupVar (eraseVar cms v) v' = some buf := by
                rw [lookupVar_eraseVar_ne cms v v' (fun h => hv' h.symm)]
                exact hlk
              exact (ih3 v' n' buf hr hu' hk' hlk').trans
                (List.sublist_append_right _ _)
          · intro e he
            rcases List.mem_append.mp he with hl | hr
            · exact ⟨v, n, buf0, List.mem_cons_self _ _, hu, hk, hcv, hl⟩
            · obtain ⟨w, n', buf, hmem, h1, h2, h3, h4⟩ := ih4 e hr
              have hw : w ≠ v := by
                intro h
                exact hvrest (h ▸ List.mem_map.mpr ⟨(w, n'), hmem, rfl⟩)
              rw [lookupVar_eraseVar_ne cms v w (fun h => hw h.symm)] at h3
              exact ⟨w, n', buf, List.mem_cons_of_mem _ hmem, h1, h2, h3, h4⟩
    · -- not possibly used: drop the variable and its conditional messages
      replace hu : live.possiblyUsed v = false := by
        cases h : live.possiblyUsed v
        · rfl
        · exact absurd h hu
      have hred : pruneVarsGo live ((v, n) :: rest) cms =
          pruneVarsGo live rest (eraseVar cms v) := by
        simp [pruneVarsGo, hu]
      obtain ⟨ih1, ih2, ih3, ih4⟩ := ih (eraseVar cms v) hndr hcmse
      rw [hred]
      refine ⟨?_, ?_, ?_, ?_⟩
      · simp [List.filter_cons, hu, ih1]
      · intro w
        rw [ih2 w]
        by_cases hw : w = v
        · subst hw
          rw [if_neg (by simp [hvrest]), if_pos (by simp [hu]),
            lookupVar_eraseVar_self cms w hcms]
        · rw [lookupVar_eraseVar_ne cms v w (fun h => hw h.symm)]
          exact (if_cond_cons w v _ _ _ _ hw).symm
      · intro v' n' buf hmem hu' hk' hlk
        rcases List.mem_cons.mp hmem with he | hr
        · exfalso
          have hv' : v' = v := (Prod.mk.inj he).1
          rw [hv', hu] at hu'
          exact Bool.false_ne_true hu'
        · have hv' : v' ≠ v := by
            intro h
            exact hvrest (h ▸ List.mem_map.mpr ⟨(v', n'), hr, rfl⟩)
          have hlk' : lookupVar (eraseVar cms v) v' = some buf := by
            rw [lookupVar_eraseVar_ne cms v v' (fun h => hv' h.symm)]
            exact hlk
          exact ih3 v' n' buf hr hu' hk' hlk'
      · intro e he
        obtain ⟨w, n', buf, hmem, h1, h2, h3, h4⟩ := ih4 e he
        have hw : w ≠ v := by
          intro h
          exact hvrest (h ▸ List.mem_map.mpr ⟨(w, n'), hmem, rfl⟩)
        rw [lookupVar_eraseVar_ne cms v w (fun h => hw h.symm)] at h3
        exact ⟨w, n', buf, List.mem_cons_of_mem _ hmem, h1, h2, h3, h4⟩

theorem lookupVar_filter_none {α : Type} (vs : List (Var × α)) (v : Var)
    (p : Var → Bool) (hp : p v = false) :
    lookupVar (vs.filter (fun q => p q.1)) v = none := by
  induction vs with
  | nil => rfl
  | cons q rest ih =>
    obtain ⟨k, a⟩ := q
    by_cases hk : p k = true
    · rw [List.filter_cons_of_pos (by simpa using hk)]
      have hkv : k ≠ v := by
        intro h
        rw [h, hp] at hk
        exact Bool.false_ne_true hk
      simp only [lookupVar, if_neg hkv]
      exact ih
    · rw [List.filter_cons_of_neg (by simpa using hk)]
      exact ih

theorem issueConditionalMessage_condMsgs_of_none (live : LivenessInfo) (v : Var)
    (d : Diag) (loc : Nat) (fv : FreshVarsTy)
    (h : lookupVar fv.condMsgs v = none) :
    lookupVar (issueConditionalMessage live v d loc fv).fv.condMsgs v = none ∨
    lookupVar (issueConditionalMessage live v d loc fv).fv.condMsgs v =
      some [⟨d, loc⟩] := by
  unfold issueConditionalMessage
  split
  · exact Or.inl h
  · rw [h]
    dsimp only
    exact Or.inr (lookupVar_setVar_self _ _ _)

/-- C6: the life cycle of a pending conditional diagnostic.  Conjunct (a):
a store overwriting a checked-fresh slot discards its conditional messages
without emitting anything.  Conjunct (b): at the liveness prune (run at
every allocating call), a tracked slot no longer possibly used is dropped
together with its conditional messages, a tracked slot possibly used but
not possibly killed has its buffer flushed (every buffered message is
emitted, in order) and removed, and nothing else is emitted by the prune.
Conjunct (c): on a load of the slot the buffer is emitted first and
removed (the load handling may buffer one new message for this very
instruction afterwards). -/
theorem condMsg_lifecycle :
    (∀ (cf : Var → Bool) (balance : Option BalanceStateTy) (v : Var) (src : StoreSrc)
        (fv : FreshVarsTy) (loc : Nat), fv.confused = false → cf v = true →
        (fv.condMsgs.map Prod.fst).Nodup →
        lookupVar (handleStore cf balance (.allocaStore v src) fv loc).fv.condMsgs v =
          none ∧
        (handleStore cf balance (.allocaStore v src) fv loc).ems = []) ∧
    (∀ (live : LivenessInfo) (fv : FreshVarsTy),
        (fv.vars.map Prod.fst).Nodup → (fv.condMsgs.map Prod.fst).Nodup →
        (∀ v n, (v, n) ∈ fv.vars → live.possiblyUsed v = false →
          lookupVar (pruneFreshVars live fv).fv.vars v = none ∧
          lookupVar (pruneFreshVars live fv).fv.condMsgs v = none) ∧
        (∀ v n buf, (v, n) ∈ fv.vars → live.possiblyUsed v = true →
          live.possiblyKilled v = false → lookupVar fv.condMsgs v = some buf →
          buf.Sublist (pruneFreshVars live fv).ems ∧
          lookupVar (pruneFreshVars live fv).fv.condMsgs v = none) ∧
        (∀ e, e ∈ (pruneFreshVars live fv).ems → ∃ w n buf, (w, n) ∈ fv.vars ∧
          live.possiblyUsed w = true ∧ live.possiblyKilled w = false ∧
          lookupVar fv.condMsgs w = some buf ∧ e ∈ buf)) ∧
    (∀ (live : LivenessInfo) (ld : LoadDescr) (fv : FreshVarsTy) (loc : Nat)
        (buf : DelayedMsgs), fv.confused = false →
        lookupVar fv.condMsgs ld.var = some buf →
        (fv.condMsgs.map Prod.fst).Nodup →
        (∃ tail, (handleLoad live (some ld) fv loc).ems = buf ++ tail) ∧
        (lookupVar (handleLoad live (some ld) fv loc).fv.condMsgs ld.var = none ∨
         ∃ nm, lookupVar (handleLoad live (some ld) fv loc).fv.condMsgs ld.var =
           some [⟨.mayDestroyArg ld.var nm, loc⟩])) := by
  refine ⟨?_, ?_, ?_⟩
  · -- (a) store overwrite discards
    intro cf balance v src fv loc hconf hcf hnd
    have herase := lookupVar_eraseVar_self fv.condMsgs v hnd
    unfold handleStore
    rw [if_neg (by simp [hconf])]
    dsimp only
    rw [if_neg (by simp [hcf])]
    try dsimp only
    cases src with
    | callNamed name alloc users =>
      try dsimp only
      split
      · exact ⟨herase, rfl⟩
      · split
        · split <;> exact ⟨herase, rfl⟩
        · exact ⟨herase, rfl⟩
    | derivedLoad dvars =>
      try dsimp only
      split <;> exact ⟨herase, rfl⟩
    | plainValue => exact ⟨herase, rfl⟩
  · -- (b) the liveness prune
    intro live fv hndv hndc
    obtain ⟨h1, h2, h3, h4⟩ := pruneVarsGo_spec live fv.vars fv.condMsgs hndv hndc
    refine ⟨?_, ?_, ?_⟩
    · intro v n hmem hdead
      constructor
      · show lookupVar (pruneVarsGo live fv.vars fv.condMsgs).1 v = none
        rw [h1]
        exact lookupVar_filter_none fv.vars v _ hdead
      · show lookupVar (pruneVarsGo live fv.vars fv.condMsgs).2.1 v = none
        rw [h2 v]
        rw [if_pos ⟨List.mem_map.mpr ⟨(v, n), hmem, rfl⟩, Or.inl hdead⟩]
    · intro v n buf hmem hused hkilled hbuf
      refine ⟨h3 v n buf hmem hused hkilled hbuf, ?_⟩
      show lookupVar (pruneVarsGo live fv.vars fv.condMsgs).2.1 v = none
      rw [h2 v]
      rw [if_pos ⟨List.mem_map.mpr ⟨(v, n), hmem, rfl⟩, Or.inr hkilled⟩]
    · exact h4
  · -- (c) flush on load
    intro live ld fv loc buf hconf hbuf hnd
    have herase := lookupVar_eraseVar_self fv.condMsgs ld.var hnd
    unfold handleLoad
    rw [if_neg (by simp [hconf])]
    dsimp only
    rw [hbuf]
    dsimp only
    rcases h2 : lookupVar fv.vars ld.var with _ | n
    · exact ⟨⟨[], (List.append_nil buf).symm⟩, Or.inl herase⟩
    · dsimp only
      split
      · exact ⟨⟨[], (List.append_nil buf).symm⟩, Or.inl herase⟩
      · rcases htgt : ld.lastUserTgt with _ | tgt
        · exact ⟨⟨[], (List.append_nil buf).symm⟩, Or.inl herase⟩
        · dsimp only
          split
          · exact ⟨⟨[], (List.append_nil buf).symm⟩, Or.inl herase⟩
          · split
            · exact ⟨⟨[], (List.append_nil buf).symm⟩, Or.inl herase⟩
            · split
              · exact ⟨⟨[], (List.append_nil buf).symm⟩, Or.inl herase⟩
              · refine ⟨?_, ?_⟩
                · refine ⟨(if tgt.notCalleeSafeAt then
                      [⟨.freshPointerToAlloc ld.var tgt.name, loc⟩] else []) ++
                      (issueConditionalMessage live ld.var
                        (.mayDestroyArg ld.var tgt.name) loc
                        { fv with
                          vars := loadUserScan fv.vars ld.var ld.users,
                          condMsgs := eraseVar fv.condMsgs ld.var }).ems, ?_⟩
                  rw [List.append_assoc]
                · rcases issueConditionalMessage_condMsgs_of_none live ld.var
                      (.mayDestroyArg ld.var tgt.name) loc
                      { fv with
                        vars := loadUserScan fv.vars ld.var ld.users,
                        condMsgs := eraseVar fv.condMsgs ld.var } herase with hl | hr
                  · exact Or.inl hl
                  · exact Or.inr ⟨tgt.name, hr⟩

/-- Witness for C6 at concrete states: an overwrite store, a prune of a
dead variable, and a load flush. -/
theorem condMsg_lifecycle_witness :
    (lookupVar (handleStore (fun _ => true) none (.allocaStore 1 .plainValue)
        ⟨[], [(1, [⟨.pstackTooDeep, 0⟩])], [], false⟩ 3).fv.condMsgs 1 = none ∧
      (handleStore (fun _ => true) none (.allocaStore 1 .plainValue)
        ⟨[], [(1, [⟨.pstackTooDeep, 0⟩])], [], false⟩ 3).ems = []) ∧
    (lookupVar (pruneFreshVars ⟨fun _ => false, fun _ => false, fun _ => false⟩
        ⟨[(1, 0)], [(1, [⟨.pstackTooDeep, 0⟩])], [], false⟩).fv.vars 1 = none ∧
      lookupVar (pruneFreshVars ⟨fun _ => false, fun _ => false, fun _ => false⟩
        ⟨[(1, 0)], [(1, [⟨.pstackTooDeep, 0⟩])], [], false⟩).fv.condMsgs 1 = none) ∧
    (∃ tail, (handleLoad ⟨fun _ => false, fun _ => false, fun _ => false⟩
        (some ⟨1, [], true, none⟩)
        ⟨[(1, 0)], [(1, [⟨.pstackTooDeep, 0⟩])], [], false⟩ 3).ems =
      [⟨.pstackTooDeep, 0⟩] ++ tail) :=
  ⟨condMsg_lifecycle.1 (fun _ => true) none 1 .plainValue
      ⟨[], [(1, [⟨.pstackTooDeep, 0⟩])], [], false⟩ 3 rfl rfl (by decide),
   (condMsg_lifecycle.2.1 ⟨fun _ => false, fun _ => false, fun _ => false⟩
      ⟨[(1, 0)], [(1, [⟨.pstackTooDeep, 0⟩])], [], false⟩ (by decide) (by decide)).1
      1 0 (by decide) rfl,
   (condMsg_lifecycle.2.2 ⟨fun _ => false, fun _ => false, fun _ => false⟩
      ⟨1, [], true, none⟩ ⟨[(1, 0)], [(1, [⟨.pstackTooDeep, 0⟩])], [], false⟩ 3
      [⟨.pstackTooDeep, 0⟩] rfl rfl (by decide)).1⟩

/-! ## The confused flag and diagnostic suppression (C7) -/

theorem mem_allocArgFold (tgtName : String) (loc : Nat) :
    ∀ (args : List ArgDescr) (e : LineInfoTy),
      e ∈ args.foldr
        (fun a acc =>
          match a.srcAllocator with
          | some srcName =>
            if a.calleeSafeAt then acc else ⟨.allocArgAlloc tgtName srcName, loc⟩ :: acc
          | none => acc) [] →
      ∃ src, e = ⟨.allocArgAlloc tgtName src, loc⟩ := by
  intro args
  induction args with
  | nil => intro e he; simp at he
  | cons a rest ih =>
    intro e he
    simp only [List.foldr_cons] at he
    rcases ha : a.srcAllocator with _ | src
    · rw [ha] at he
      exact ih e he
    · rw [ha] at he
      dsimp only at he
      split at he
      · exact ih e he
      · rcases List.mem_cons.mp he with h | h
        · exact ⟨src, h⟩
        · exact ih e h

theorem mem_allocArgFindings (tgtName : String) (pa cs : Bool) (args : List ArgDescr)
    (loc : Nat) (e : LineInfoTy) (he : e ∈ allocArgFindings tgtName pa cs args loc) :
    ∃ src, e = ⟨.allocArgAlloc tgtName src, loc⟩ := by
  unfold allocArgFindings at he
  split at he
  · exact mem_allocArgFold tgtName loc args e he
  · simp at he

/-- Counterexample to C7 as stated: on a confused trace, the
fresh-variables call handler still emits the "calling allocating function
with argument allocated using ..." finding (the allocating-argument check
runs even when the tool is confused). -/
theorem confused_still_emits :
    (⟨[], [], [], true⟩ : FreshVarsTy).confused = true ∧
    (handleCall 5 (fun _ => true) ⟨fun _ => false, fun _ => false, fun _ => false⟩ none
      ⟨some ⟨"tgtf", true, false, false⟩, none, ⟨none, none, [], none⟩, .otherArg,
        [⟨some "srcf", false, false, none, true, []⟩]⟩
      ⟨[], [], [], true⟩ 7).ems =
      [⟨.allocArgAlloc "tgtf" "srcf", 7⟩] := by
  exact ⟨rfl, by decide⟩

/-- C7 (amended): once the fresh-vars `confused` flag is set, the load and
store handlers do nothing and emit nothing, and the call handler leaves
the fresh-vars state unchanged and emits at most allocating-argument
findings (which the code issues even when confused); all other
fresh-variable diagnostics are suppressed. -/
theorem confused_suppresses (maxPstack : Nat) (cf : Var → Bool) (live : LivenessInfo)
    (balance : Option BalanceStateTy) (dc : CallDescr) (dl : Option LoadDescr)
    (ds : StoreDescr) (fv : FreshVarsTy) (loc : Nat) (hconf : fv.confused = true) :
    handleLoad live dl fv loc = ⟨fv, [], 0⟩ ∧
    handleStore cf balance ds fv loc = ⟨fv, [], 0⟩ ∧
    (handleCall maxPstack cf live balance dc fv loc).fv = fv ∧
    (∀ e ∈ (handleCall maxPstack cf live balance dc fv loc).ems,
      ∃ t s, e = ⟨.allocArgAlloc t s, loc⟩) := by
  have hcall : (handleCall maxPstack cf live balance dc fv loc).fv = fv ∧
      (∀ e ∈ (handleCall maxPstack cf live balance dc fv loc).ems,
        ∃ t s, e = ⟨.allocArgAlloc t s, loc⟩) := by
    cases hres : dc.resolved with
    | none =>
      constructor
      · simp [handleCall, hres]
      · intro e he
        simp [handleCall, hres] at he
    | some tgt =>
      have hp1 : handleCallPhase1 maxPstack cf balance dc tgt fv loc =
          (fv, [], 0, false) := by
        unfold handleCallPhase1
        rw [if_pos (by simp [hconf])]
      by_cases halloc : tgt.isCAllocating = true
      · have hred : handleCall maxPstack cf live balance dc fv loc =
            ⟨fv, allocArgFindings tgt.name tgt.protectsArguments tgt.calleeSafeWhole
              dc.args loc,
             (allocArgFindings tgt.name tgt.protectsArguments tgt.calleeSafeWhole
              dc.args loc).length⟩ := by
          simp [handleCall, hres, hp1, hconf, halloc]
        constructor
        · rw [hred]
        · rw [hred]
          intro e he
          obtain ⟨src, hsrc⟩ := mem_allocArgFindings _ _ _ _ _ e he
          exact ⟨tgt.name, src, hsrc⟩
      · have hred : handleCall maxPstack cf live balance dc fv loc = ⟨fv, [], 0⟩ := by
          simp [handleCall, hres, hp1, halloc]
        constructor
        · rw [hred]
        · rw [hred]
          intro e he
          exact absurd he (List.not_mem_nil e)
  exact ⟨by simp [handleLoad, hconf], by simp [handleStore, hconf], hcall.1, hcall.2⟩

/-- Witness for C7 (amended) at a concrete confused state. -/
theorem confused_suppresses_witness :
    handleLoad ⟨fun _ => false, fun _ => false, fun _ => false⟩ none
      ⟨[], [], [], true⟩ 7 = ⟨⟨[], [], [], true⟩, [], 0⟩ ∧
    handleStore (fun _ => true) none .otherInstr ⟨[], [], [], true⟩ 7 =
      ⟨⟨[], [], [], true⟩, [], 0⟩ :=
  have h := confused_suppresses 5 (fun _ => true)
    ⟨fun _ => false, fun _ => false, fun _ => false⟩ none
    ⟨none, none, ⟨none, none, [], none⟩, .otherArg, []⟩ none .otherInstr
    ⟨[], [], [], true⟩ 7 rfl
  ⟨h.1, h.2.1⟩

/-! ## Hash/equality consistency and state interning (C10, C2) -/

theorem hash_eq_of_equal (l r : BcheckStateTy) (h : BcheckStateTy_equal l r = true) :
    BcheckStateTy.hash l = BcheckStateTy.hash r := by
  simp only [BcheckStateTy_equal, Bool.and_eq_true, decide_eq_true_eq, and_assoc] at h
  obtain ⟨h1, h2, h3, h4, h5, h6, h7, h8, h9, h10, h11, h12, h13, h14⟩ := h
  unfold BcheckStateTy.hash
  rw [h1, h2, h3, h4, h5, h9, h10, h11, h12, h13]

/-- C10: the code's structural equality implies equal hash codes (conjunct
1) — this is what makes interning in the hash-keyed visited set correct —
and the hash deliberately ignores `topSaveVar`, `counterVar` and the two
`confused` flags (conjunct 2: replacing them leaves the hash unchanged). -/
theorem hash_consistent_with_equality :
    (∀ l r : BcheckStateTy, BcheckStateTy_equal l r = true →
      BcheckStateTy.hash l = BcheckStateTy.hash r) ∧
    (∀ (s : BcheckStateTy) (tsv cv : Option Var) (bc fc : Bool),
      BcheckStateTy.hash
        { s with
          balance := { s.balance with
            topSaveVar := tsv, counterVar := cv, confused := bc },
          freshVars := { s.freshVars with confused := fc } } =
        BcheckStateTy.hash s) :=
  ⟨hash_eq_of_equal, fun _ _ _ _ _ => rfl⟩

/-- Witness for C10: two (structurally equal) concrete states hash
alike. -/
theorem hash_consistent_with_equality_witness :
    BcheckStateTy.hash
        ⟨0, ⟨0, 0, .CS_NONE, none, -1, none, false⟩, [], [], ⟨[], [], [], false⟩⟩ =
      BcheckStateTy.hash
        ⟨0, ⟨0, 0, .CS_NONE, none, -1, none, false⟩, [], [], ⟨[], [], [], false⟩⟩ :=
  hash_consistent_with_equality.1
    ⟨0, ⟨0, 0, .CS_NONE, none, -1, none, false⟩, [], [], ⟨[], [], [], false⟩⟩
    ⟨0, ⟨0, 0, .CS_NONE, none, -1, none, false⟩, [], [], ⟨[], [], [], false⟩⟩
    (by decide)

/-- The equality enumerated by claim C2, following the claim's words
(spec-side definition for comparison): agreement on basic block, all
balance fields, integer guards, SEXP guards, the fresh-variables map, the
conditional messages, and the protect stack — the fresh-vars `confused`
flag is not in the enumeration. -/
def claimC2Equal (lhs rhs : BcheckStateTy) : Bool :=
  decide (lhs.bb = rhs.bb) && decide (lhs.balance = rhs.balance) &&
  decide (lhs.intGuards = rhs.intGuards) && decide (lhs.sexpGuards = rhs.sexpGuards) &&
  decide (lhs.freshVars.vars = rhs.freshVars.vars) &&
  decide (lhs.freshVars.condMsgs = rhs.freshVars.condMsgs) &&
  decide (lhs.freshVars.pstack = rhs.freshVars.pstack)

/-- Counterexample to C2 as stated: two states agreeing on every field the
claim enumerates but differing in the fresh-vars `confused` flag are NOT
treated as duplicates — the second is accepted into the visited set and
enqueued (the code's equality also compares `freshVars.confused`). -/
theorem visited_insert_claim_equal_not_noop :
    claimC2Equal
        ⟨0, ⟨0, 0, .CS_NONE, none, -1, none, false⟩, [], [], ⟨[], [], [], false⟩⟩
        ⟨0, ⟨0, 0, .CS_NONE, none, -1, none, false⟩, [], [], ⟨[], [], [], true⟩⟩ =
      true ∧
    BcheckStateTy.add
        ⟨0, ⟨0, 0, .CS_NONE, none, -1, none, false⟩, [], [], ⟨[], [], [], true⟩⟩
        [⟨0, ⟨0, 0, .CS_NONE, none, -1, none, false⟩, [], [], ⟨[], [], [], false⟩⟩]
        [] =
      (true,
        [⟨0, ⟨0, 0, .CS_NONE, none, -1, none, false⟩, [], [], ⟨[], [], [], true⟩⟩,
         ⟨0, ⟨0, 0, .CS_NONE, none, -1, none, false⟩, [], [], ⟨[], [], [], false⟩⟩],
        [⟨0, ⟨0, 0, .CS_NONE, none, -1, none, false⟩, [], [], ⟨[], [], [], true⟩⟩]) :=
  ⟨by decide, by decide⟩

/-- C2 (amended): inserting a state for which an equal state — equal in
the code's structural equality, which agrees on the claim's enumeration
AND the fresh-vars confused flag — is already in the visited set is a
no-op: the duplicate is rejected (and deleted, "state suicide"), nothing
is enqueued, and both sets are unchanged. -/
theorem visited_insert_duplicate_noop (s : BcheckStateTy)
    (doneSet workList : List BcheckStateTy)
    (h : ∃ t ∈ doneSet, BcheckStateTy_equal t s = true) :
    BcheckStateTy.add s doneSet workList = (false, doneSet, workList) := by
  obtain ⟨t, ht, heq⟩ := h
  unfold BcheckStateTy.add
  rw [if_pos]
  exact List.any_eq_true.mpr ⟨t, ht, by
    rw [hash_eq_of_equal t s heq, heq]
    simp⟩

/-- Witness for C2 (amended): re-inserting an identical state is a
no-op. -/
theorem visited_insert_duplicate_noop_witness :
    BcheckStateTy.add
        ⟨0, ⟨0, 0, .CS_NONE, none, -1, none, false⟩, [], [], ⟨[], [], [], false⟩⟩
        [⟨0, ⟨0, 0, .CS_NONE, none, -1, none, false⟩, [], [], ⟨[], [], [], false⟩⟩]
        [] =
      (false,
        [⟨0, ⟨0, 0, .CS_NONE, none, -1, none, false⟩, [], [], ⟨[], [], [], false⟩⟩],
        []) :=
  visited_insert_duplicate_noop
    ⟨0, ⟨0, 0, .CS_NONE, none, -1, none, false⟩, [], [], ⟨[], [], [], false⟩⟩
    [⟨0, ⟨0, 0, .CS_NONE, none, -1, none, false⟩, [], [], ⟨[], [], [], false⟩⟩] []
    ⟨_, List.mem_singleton.mpr rfl, by decide⟩

/-! ## The MAX_STATES bound (C9) -/

/-- Counterexample to C9 as stated: the visited set already exceeds
`MAX_STATES` (here 0) when a state is dequeued, but because the dequeued
state's block (5) is on an error path, the loop just skips it
(`continue`) — the run is not abandoned and the visited set is not
released at that dequeue. -/
theorem max_states_error_path_skips :
    ([⟨0, ⟨0, 0, .CS_NONE, none, -1, none, false⟩, [], [], ⟨[], [], [], false⟩⟩] :
        List BcheckStateTy).length > 0 ∧
    dequeueStep 0 [5] false 0
        [⟨5, ⟨0, 0, .CS_NONE, none, -1, none, false⟩, [], [], ⟨[], [], [], false⟩⟩]
        [⟨0, ⟨0, 0, .CS_NONE, none, -1, none, false⟩, [], [], ⟨[], [], [], false⟩⟩] =
      .skipped []
        [⟨0, ⟨0, 0, .CS_NONE, none, -1, none, false⟩, [], [], ⟨[], [], [], false⟩⟩] :=
  ⟨by decide, by decide⟩

/-- C9 (amended): whenever the visited set's size exceeds `MAX_STATES` at
the time a state is dequeued whose block is NOT on an error path (and the
loop is not already exiting for a refinement restart), the run is
abandoned: `clearStates()` releases every accumulated state and the
function's run returns, processing no further instruction. -/
theorem max_states_abandons (maxStates : Nat) (errorBlocks : List Nat)
    (restartable : Bool) (refinableInfos : Nat) (s : BcheckStateTy)
    (rest doneSet : List BcheckStateTy)
    (hnr : ¬(restartable = true ∧ refinableInfos > 0))
    (herr : s.bb ∉ errorBlocks) (hsize : doneSet.length > maxStates) :
    dequeueStep maxStates errorBlocks restartable refinableInfos (s :: rest) doneSet =
      .abandoned := by
  unfold dequeueStep
  dsimp only
  rw [if_neg hnr, if_neg herr, if_pos hsize]

/-- Witness for C9 (amended) at a concrete engine state. -/
theorem max_states_abandons_witness :
    dequeueStep 0 [] false 0
        [⟨0, ⟨0, 0, .CS_NONE, none, -1, none, false⟩, [], [], ⟨[], [], [], false⟩⟩]
        [⟨1, ⟨0, 0, .CS_NONE, none, -1, none, false⟩, [], [], ⟨[], [], [], false⟩⟩] =
      .abandoned :=
  max_states_abandons 0 [] false 0
    ⟨0, ⟨0, 0, .CS_NONE, none, -1, none, false⟩, [], [], ⟨[], [], [], false⟩⟩ []
    [⟨1, ⟨0, 0, .CS_NONE, none, -1, none, false⟩, [], [], ⟨[], [], [], false⟩⟩]
    (by simp) (by decide) (by decide)

/-! ## Adaptive refinement (C1) -/

/-- The number of guard precisions still disabled. -/
def guardsRemaining (ig sg : Bool) : Nat :=
  (if ig then 0 else 1) + (if sg then 0 else 1)

theorem nextPrecision_decreases (a b ig sg : Bool)
    (h : restartableFlag a b ig sg = true) :
    guardsRemaining (nextPrecision a b ig sg).1 (nextPrecision a b ig sg).2 <
      guardsRemaining ig sg := by
  revert h
  cases a <;> cases b <;> cases ig <;> cases sg <;> decide

theorem refineAux_head (a b : Bool) (run : Bool → Bool → RunResult) (fuel : Nat)
    (ig sg : Bool) (buf : List LineInfoTy) :
    (refineAux a b run (fuel + 1) ig sg buf).1.head? = some (ig, sg, run ig sg) := by
  unfold refineAux
  dsimp only
  split <;> rfl

/-- The escalation relation between consecutive runs of the controller:
the earlier run was restartable with a refinable finding, and the later
run is the same function at the next precision. -/
def escalRel (a b : Bool) (run : Bool → Bool → RunResult)
    (x y : Bool × Bool × RunResult) : Prop :=
  restartableFlag a b x.1 x.2.1 = true ∧ x.2.2.refinable > 0 ∧
  (y.1, y.2.1) = nextPrecision a b x.1 x.2.1 ∧ y.2.2 = run y.1 y.2.1

theorem refineAux_spec (a b : Bool) (run : Bool → Bool → RunResult) :
    ∀ (fuel : Nat) (ig sg : Bool), guardsRemaining ig sg < fuel →
      List.Chain' (escalRel a b run) (refineAux a b run fuel ig sg []).1 ∧
      (∃ lst, (refineAux a b run fuel ig sg []).1.getLast? = some lst ∧
        ¬(restartableFlag a b lst.1 lst.2.1 = true ∧ lst.2.2.refinable > 0) ∧
        (refineAux a b run fuel ig sg []).2 = lst.2.2.diags) := by
  intro fuel
  induction fuel with
  | zero => intro ig sg h; omega
  | succ fuel ih =>
    intro ig sg hlt
    by_cases hc : restartableFlag a b ig sg = true ∧ (run ig sg).refinable > 0
    · have hdec := nextPrecision_decreases a b ig sg hc.1
      have hlt' : guardsRemaining (nextPrecision a b ig sg).1
          (nextPrecision a b ig sg).2 < fuel := by omega
      obtain ⟨ihc, lst, hlast, hstop, hbuf⟩ :=
        ih (nextPrecision a b ig sg).1 (nextPrecision a b ig sg).2 hlt'
      have hred : refineAux a b run (fuel + 1) ig sg [] =
          ((ig, sg, run ig sg) ::
            (refineAux a b run fuel (nextPrecision a b ig sg).1
              (nextPrecision a b ig sg).2 []).1,
            (refineAux a b run fuel (nextPrecision a b ig sg).1
              (nextPrecision a b ig sg).2 []).2) := by
        conv_lhs => rw [refineAux]
        dsimp only
        rw [if_pos hc]
      obtain ⟨f2, rfl⟩ : ∃ f2, fuel = f2 + 1 := ⟨fuel - 1, by omega⟩
      have hhead := refineAux_head a b run f2 (nextPrecision a b ig sg).1
        (nextPrecision a b ig sg).2 []
      obtain ⟨z, zs, hz⟩ : ∃ z zs,
          (refineAux a b run (f2 + 1) (nextPrecision a b ig sg).1
            (nextPrecision a b ig sg).2 []).1 = z :: zs := by
        rcases hl : (refineAux a b run (f2 + 1) (nextPrecision a b ig sg).1
            (nextPrecision a b ig sg).2 []).1 with _ | ⟨z, zs⟩
        · rw [hl] at hhead
          exact absurd hhead (by simp)
        · exact ⟨z, zs, rfl⟩
      rw [hz] at hhead
      simp only [List.head?_cons, Option.some.injEq] at hhead
      rw [hred]
      constructor
      · rw [hz]
        refine List.Chain'.cons ?_ (hz ▸ ihc)
        rw [hhead]
        exact ⟨hc.1, hc.2, rfl, rfl⟩
      · refine ⟨lst, ?_, hstop, hbuf⟩
        rw [hz] at hlast ⊢
        rw [List.getLast?_cons_cons]
        exact hlast
    · have hred : refineAux a b run (fuel + 1) ig sg [] =
          ([(ig, sg, run ig sg)], [] ++ (run ig sg).diags) := by
        unfold refineAux
        dsimp only
        rw [if_neg hc]
      rw [hred]
      exact ⟨List.chain'_singleton _, (ig, sg, run ig sg), rfl, hc, by simp⟩

/-- C1: the adaptive-refinement controller.  The run sequence starts at
the baseline precision (both guard domains off; conjunct 1).  Every
consecutive pair of runs is an escalation step: the earlier run was
restartable (some precision still disabled and not avoided) with at least
one refinable finding, and the controller reran the same function at
`nextPrecision` — integer guards first when not avoided, SEXP guards
otherwise (conjunct 2).  The loop stops exactly when the last run has no
refinable finding or no precision remains to enable (conjunct 3), and
only the final run's diagnostics survive — every restarted run's
diagnostics were discarded by `m.msg.clear()` (conjunct 3, last part). -/
theorem adaptive_refinement (aI aS : Bool) (run : Bool → Bool → RunResult) :
    (checkFunctionRuns aI aS run).head? = some (false, false, run false false) ∧
    List.Chain' (escalRel aI aS run) (checkFunctionRuns aI aS run) ∧
    (∃ lst, (checkFunctionRuns aI aS run).getLast? = some lst ∧
      ¬(restartableFlag aI aS lst.1 lst.2.1 = true ∧ lst.2.2.refinable > 0) ∧
      checkFunctionEmitted aI aS run = lst.2.2.diags) := by
  have h := refineAux_spec aI aS run 3 false false (by decide)
  exact ⟨refineAux_head aI aS run 2 false false [], h.1, h.2⟩

/-- Witness for C1 at a concrete per-function oracle (one refinable
finding at baseline, none once integer guards are enabled). -/
theorem adaptive_refinement_witness :
    (checkFunctionRuns false false
        (fun ig _ => ⟨if ig then 0 else 1, []⟩)).head? =
      some (false, false, ⟨1, []⟩) :=
  (adaptive_refinement false false (fun ig _ => ⟨if ig then 0 else 1, []⟩)).1

end Rchk
